import Mathlib

/-!
Verification development for the fuzzy field-resolution, query-construction,
pagination and diff-parsing core of the mcp-gitlab-jira server.

The TypeScript sources embedded here are `src/jira.service.ts`
(`findBestMatchingOption`, `findBestMatchingSprint`, `getFieldId`,
`searchTickets`' JQL construction, `getAllBoards`,
`getAvailableSprintsForTicket`) and `src/gitlab.service.ts` (`parseDiff`).
JavaScript strings are embedded as Lean `String`s operated on through their
`Char` lists; all operations relevant to the programs are on ASCII data, where
`Char.toLower`, the whitespace class and code-point comparison agree with the
JavaScript behaviour (`toLowerCase`, `\s`, `localeCompare` is modelled as
code-point order).  Asynchronous HTTP calls are embedded by passing the
responses (or a response function) as explicit arguments; `Except String`
models thrown `Error`s, carrying the message.
-/

set_option maxRecDepth 8192

/-- Results of type `Except` are compared propositionally throughout; equality on them
is decidable componentwise. -/
instance {ε α : Type} [DecidableEq ε] [DecidableEq α] : DecidableEq (Except ε α)
  | .error e, .error f =>
    if h : e = f then .isTrue (by rw [h]) else .isFalse (by simp [h])
  | .error _, .ok _ => .isFalse (by simp)
  | .ok _, .error _ => .isFalse (by simp)
  | .ok a, .ok b =>
    if h : a = b then .isTrue (by rw [h]) else .isFalse (by simp [h])

/-- JavaScript `\s` on ASCII input: space, tab, newline, carriage return,
vertical tab, form feed. -/
def wsChar (c : Char) : Bool :=
  c = ' ' || c = '\t' || c = '\n' || c = '\r' || c = '\x0b' || c = '\x0c'

/-- JavaScript `String.prototype.toLowerCase` on ASCII input. -/
def jsLower (s : String) : String := ⟨s.data.map Char.toLower⟩

/-- JavaScript `String.prototype.trim` on ASCII input. -/
def jsTrim (s : String) : String :=
  ⟨((s.data.dropWhile wsChar).reverse.dropWhile wsChar).reverse⟩

/-- The composite `x.toLowerCase().trim()`, the normalization used by
`findBestMatchingOption` and `findBestMatchingSprint`. -/
def normalizeLT (s : String) : String := jsTrim (jsLower s)

/-- JavaScript `Array.prototype.join(sep)` (on string arrays). -/
def jsJoin (sep : String) : List String → String
  | [] => ""
  | [x] => x
  | x :: y :: rest => x ++ sep ++ jsJoin sep (y :: rest)

/-- JavaScript truthiness of an optional string: `undefined` and `""` are
falsy. -/
def optTruthy : Option String → Bool
  | some s => s ≠ ""
  | none => false

/-- JavaScript `a || d` for an optional string `a`: `a` when truthy,
otherwise `d`. -/
def truthyOr (a : Option String) (d : String) : String :=
  match a with
  | some v => if v = "" then d else v
  | none => d

/-- Does `needle` occur at the head of `hay`? (list version of
`String.prototype.startsWith`). -/
def startsList : List Char → List Char → Bool
  | [], _ => true
  | _ :: _, [] => false
  | n :: ns, h :: hs => n = h && startsList ns hs

/-- Auxiliary scan for `containsSub`. -/
def containsSubGo (needle : List Char) : List Char → Bool
  | [] => startsList needle []
  | h :: hs => startsList needle (h :: hs) || containsSubGo needle hs

/-- JavaScript `hay.includes(needle)`. -/
def containsSub (hay needle : String) : Bool :=
  containsSubGo needle.data hay.data

/-- Code-point comparison of char lists; `strLeB a b` iff `a` does not come
after `b`.  Models the sign of `a.localeCompare(b)` on ASCII data. -/
def strLeB : List Char → List Char → Bool
  | [], _ => true
  | _ :: _, [] => false
  | a :: as, b :: bs =>
    if a.toNat = b.toNat then strLeB as bs else decide (a.toNat < b.toNat)

/-- The test `a.localeCompare(b) <= 0`, modelled as code-point order. -/
def jsStrLe (a b : String) : Bool := strLeB a.data b.data

/-- Modelled from the spec: `levenshteinDistance` lives in `src/utils.ts`,
which is absent from the snapshot (only its callers and its unit tests
remain).  Per spec §4.1 it is the classic Levenshtein edit distance
(insertions, deletions, substitutions each cost 1) computed by dynamic
programming; this is the row-update step of that table.  `row` holds the
distances of the prefixes of `b` against the previous prefix of `a`, `left`
is the cell just computed on the current row. -/
def levRowAux (x : Char) : List Char → List Nat → Nat → List Nat
  | y :: ys, row, left =>
    match row with
    | p0 :: rest =>
      let p1 := rest.headD 0
      let cell := min (min (p1 + 1) (left + 1)) (p0 + (if x = y then 0 else 1))
      cell :: levRowAux x ys rest cell
    | [] => []
  | [], _, _ => []

/-- Modelled from the spec: one full row update of the Levenshtein table. -/
def levStep (b : List Char) (row : List Nat) (x : Char) : List Nat :=
  let first := row.headD 0 + 1
  first :: levRowAux x b row first

/-- Modelled from the spec: Levenshtein distance of two char lists via the
dynamic-programming table, row by row. -/
def lev (a b : List Char) : Nat :=
  (a.foldl (levStep b) (List.range (b.length + 1))).getLastD 0

/-- Modelled from the spec (§4.1 and the unit tests of
`src/jira.service.test.ts`): `levenshteinDistance` from the missing
`src/utils.ts`. -/
def levenshteinDistance (a b : String) : Nat := lev a.data b.data

/-- An entry of a field's `allowedValues` list (ticket edit metadata).  The
source treats entries as untyped objects and reads `value` and `name`, either
of which may be absent. -/
structure AllowedOption where
  value : Option String := none
  name : Option String := none
deriving DecidableEq, Repr

/-- The fallback `opt.value || opt.name || ''` (and, via `Array.prototype.join` rendering
`undefined` as the empty string, also `opt.value || opt.name` as it appears
in the error message). -/
def optionLabel (o : AllowedOption) : String :=
  truthyOr o.value (truthyOr o.name "")

/-- The exact-match test of `findBestMatchingOption`:
`opt.value?.toLowerCase().trim() === normalizedInput ||
 opt.name?.toLowerCase().trim() === normalizedInput`. -/
def optionExactMatches (normalizedInput : String) (o : AllowedOption) : Bool :=
  (o.value.any fun v => normalizeLT v = normalizedInput) ||
  (o.name.any fun n => normalizeLT n = normalizedInput)

/-- The fuzzy-matching loop shared by `findBestMatchingOption` and
`findBestMatchingSprint`: `bestDistance` starts at `Infinity` (here: `none`),
each candidate's distance is compared with `distance < bestDistance`, so the
first candidate attaining the minimum wins. -/
def bestByDist {α : Type} (dist : α → Nat) (l : List α) : Option (α × Nat) :=
  l.foldl
    (fun acc o =>
      let d := dist o
      match acc with
      | none => some (o, d)
      | some (bo, bd) => if d < bd then some (o, d) else some (bo, bd))
    none

/-- Embedding of `JiraService.findBestMatchingOption (src/jira.service.ts)`: exact
normalized match first, then the Levenshtein loop over
`(opt.value || opt.name || '').toLowerCase()`, then the strict acceptance
threshold `max(min(normalizedInput.length, 4), 2)`; on rejection the error
lists `opt.value || opt.name` of every allowed value, joined with `", "` in
catalog order. -/
def findBestMatchingOption (inputValue : String) (allowedValues : List AllowedOption) :
    Except String AllowedOption :=
  if allowedValues.isEmpty then
    .error "No allowed values available for this field."
  else
    let normalizedInput := normalizeLT inputValue
    match allowedValues.find? (fun o => optionExactMatches normalizedInput o) with
    | some exactMatch => .ok exactMatch
    | none =>
      match bestByDist
          (fun o => levenshteinDistance normalizedInput (jsLower (optionLabel o)))
          allowedValues with
      | none => .error "No allowed values available for this field."
      | some (bestMatch, bestDistance) =>
        if bestDistance > max (min normalizedInput.length 4) 2 then
          .error ("No close match found for \"" ++ inputValue ++
            "\". Available options: " ++
            jsJoin ", " (allowedValues.map optionLabel))
        else
          .ok bestMatch

/-- The three states a Jira sprint can be in. -/
inductive SprintState
  | active
  | future
  | closed
deriving DecidableEq, Repr

/-- The string form of a sprint state, as interpolated into messages. -/
def sprintStateStr : SprintState → String
  | .active => "active"
  | .future => "future"
  | .closed => "closed"

/-- A sprint record of the Agile API as used by the service: its `id`, an
optional `name`, and a `state`.  (`updateTicketSprint` coerces string ids to
numbers; matching and deduplication only compare ids for equality, so the id
is embedded as a `Nat`.) -/
structure JiraSprint where
  id : Nat
  name : Option String := none
  state : SprintState
deriving DecidableEq, Repr

/-- The exact-match test of `findBestMatchingSprint`:
`sprint.name?.toLowerCase().trim() === normalizedInput`. -/
def sprintExactMatches (normalizedInput : String) (s : JiraSprint) : Bool :=
  s.name.any fun n => normalizeLT n = normalizedInput

/-- The rejection message of `findBestMatchingSprint`: the first 10 sprints as
`name (state)` (`'Unnamed Sprint'` when the name is falsy) joined with `", "`,
plus `" and N more"` when more than 10 sprints are available. -/
def sprintNoCloseMatchMsg (inputValue : String) (availableSprints : List JiraSprint) :
    String :=
  let availableOptions :=
    jsJoin ", " ((availableSprints.take 10).map fun s =>
      truthyOr s.name "Unnamed Sprint" ++ " (" ++ sprintStateStr s.state ++ ")")
  let moreText :=
    if availableSprints.length > 10 then
      " and " ++ toString (availableSprints.length - 10) ++ " more"
    else ""
  "No close match found for \"" ++ inputValue ++ "\". Available sprints: " ++
    availableOptions ++ moreText

/-- Embedding of `JiraService.findBestMatchingSprint (src/jira.service.ts)`: exact
normalized name match first, then the Levenshtein loop over
`(sprint.name || '').toLowerCase()`, then the lenient threshold
`max(min(normalizedInput.length * 2, 10), 4)`. -/
def findBestMatchingSprint (inputValue : String) (availableSprints : List JiraSprint) :
    Except String JiraSprint :=
  if availableSprints.isEmpty then
    .error "No available sprints for this project."
  else
    let normalizedInput := normalizeLT inputValue
    match availableSprints.find? (fun s => sprintExactMatches normalizedInput s) with
    | some exactMatch => .ok exactMatch
    | none =>
      match bestByDist
          (fun s => levenshteinDistance normalizedInput (jsLower (s.name.getD "")))
          availableSprints with
      | none => .error "No available sprints for this project."
      | some (bestMatch, bestDistance) =>
        let threshold := max (min (normalizedInput.length * 2) 10) 4
        if bestDistance > threshold then
          .error (sprintNoCloseMatchMsg inputValue availableSprints)
        else
          .ok bestMatch

/-- A field-catalog entry as used by `getFieldId`: display `name` and
`id`.  The source guards `!bestMatch.field.id`, so an empty `id` counts as
missing. -/
structure JiraField where
  id : String
  name : String
deriving DecidableEq, Repr

/-- State machine for the global replacement of the pattern `\s+` or `_` or
`-` by a single space: a run of whitespace becomes one space (`inRun` tracks
whether the previous character was whitespace), each underscore or hyphen
becomes its own space. -/
def collapseWsUnderscoreHyphen : List Char → Bool → List Char
  | [], _ => []
  | c :: cs, inRun =>
    if wsChar c then
      if inRun then collapseWsUnderscoreHyphen cs true
      else ' ' :: collapseWsUnderscoreHyphen cs true
    else if c = '_' || c = '-' then ' ' :: collapseWsUnderscoreHyphen cs false
    else c :: collapseWsUnderscoreHyphen cs false

/-- The composite `x.toLowerCase().trim()` followed by the global replacement of `\s+`, `_`
and `-` by a space: the normalization used by `getFieldId` on the input and on
every catalog entry name. -/
def normalizeFieldName (s : String) : String :=
  ⟨collapseWsUnderscoreHyphen (jsTrim (jsLower s)).data false⟩

/-- The ranking order of `getFieldId`: by distance, ascending (the source's
`sort((a, b) => a.distance - b.distance)`; `Array.prototype.sort` is stable,
as is `List.insertionSort`). -/
def fieldDistRel : JiraField × Nat → JiraField × Nat → Prop :=
  fun a b => a.2 ≤ b.2

instance : DecidableRel fieldDistRel := fun a b => Nat.decLe a.2 b.2

instance : IsTotal (JiraField × Nat) fieldDistRel :=
  ⟨fun a b => Nat.le_total a.2 b.2⟩

instance : IsTrans (JiraField × Nat) fieldDistRel :=
  ⟨fun _ _ _ h1 h2 => Nat.le_trans h1 h2⟩

/-- Embedding of `JiraService.getFieldId (src/jira.service.ts)`: rank every catalog entry
by Levenshtein distance between the normalized names, take the best; fail
when the catalog is empty, or when the best entry's `id` is falsy. -/
def getFieldId (fieldName : String) (allFields : List JiraField) :
    Except String String :=
  let normalizedFieldName := normalizeFieldName fieldName
  let rankedFields :=
    (allFields.map fun field =>
      (field, levenshteinDistance normalizedFieldName (normalizeFieldName field.name))).insertionSort
      fieldDistRel
  match rankedFields with
  | [] => .error "No fields found in Jira."
  | bestMatch :: _ =>
    if bestMatch.1.id = "" then
      .error ("Could not find a field named \"" ++ fieldName ++ "\" in Jira.")
    else
      .ok bestMatch.1.id

/-- The search criteria accepted by `JiraService.searchTickets`.  Optional
string fields are `Option String` (JavaScript `undefined` is `none`); boolean
flags default to `false`, `labels` to the empty list. -/
structure SearchCriteria where
  projectKey : Option String := none
  assigneeEmail : Option String := none
  assignedToMe : Bool := false
  statusCategory : Option String := none
  status : Option String := none
  priority : Option String := none
  labels : List String := []
  labelsMatchAll : Bool := false
  updatedSince : Option String := none
  updatedBefore : Option String := none
  createdSince : Option String := none
  createdBefore : Option String := none
  recentDays : Option Nat := none
  issueType : Option String := none
  reporter : Option String := none
  text : Option String := none
  maxResults : Option Nat := none
  orderBy : Option String := none
deriving Repr

/-- The `statusMap` synonym table of `searchTickets`. -/
def statusMap : List (String × List String) :=
  [("open", ["Open", "To Do", "New"]),
   ("progress", ["In Progress", "In Development", "In Review"]),
   ("review", ["In Review", "Code Review", "Peer Review"]),
   ("testing", ["Testing", "QA", "In Testing"]),
   ("done", ["Done", "Closed", "Resolved", "Complete"]),
   ("closed", ["Closed", "Done", "Resolved"])]

/-- The `priorityMap` synonym table of `searchTickets`. -/
def priorityMap : List (String × List String) :=
  [("high", ["High", "Highest", "Critical", "Urgent"]),
   ("medium", ["Medium", "Normal"]),
   ("low", ["Low", "Lowest", "Minor", "Trivial"]),
   ("critical", ["Critical", "Highest"]),
   ("urgent", ["Urgent", "High", "Highest"])]

/-- The `typeMap` synonym table of `searchTickets`. -/
def typeMap : List (String × List String) :=
  [("bug", ["Bug", "Defect", "Issue"]),
   ("story", ["Story", "User Story"]),
   ("task", ["Task", "To Do"]),
   ("epic", ["Epic"]),
   ("feature", ["Feature", "New Feature", "Story"])]

/-- Splitting of non-empty trimmed text into whitespace-separated tokens
(`wordsGo cs acc` accumulates the current token in reverse in `acc`). -/
def wordsGo : List Char → List Char → List String
  | [], acc => if acc.isEmpty then [] else [⟨acc.reverse⟩]
  | c :: cs, acc =>
    if wsChar c then
      if acc.isEmpty then wordsGo cs []
      else (⟨acc.reverse⟩ : String) :: wordsGo cs []
    else wordsGo cs (c :: acc)

/-- The composite of `trim` and the whitespace-run split as used by
`searchTickets`: since the string is trimmed first, the split produces the
whitespace-separated tokens, except that an all-whitespace `text` produces the
single token `""` (JavaScript `"".split` yields `[""]`). -/
def jsTrimSplitWs (t : String) : List String :=
  let tr := jsTrim t
  if tr = "" then [""] else wordsGo tr.data []

/-- The three-field fuzzy group emitted per search term by `searchTickets`'
multi-term text search. -/
def termSearchGroup (term : String) : String :=
  "(summary ~ \"" ++ term ++ "\" OR description ~ \"" ++ term ++
    "\" OR comment ~ \"" ++ term ++ "\")"

/-- The JQL-construction portion of `JiraService.searchTickets
(src/jira.service.ts)`: one condition per populated criterion, in source
order, joined with `" AND "` and suffixed with the `ORDER BY` clause (the
subsequent HTTP search call is outside the model). -/
def buildSearchJQL (criteria : SearchCriteria) : String :=
  let orderBy := truthyOr criteria.orderBy "updated DESC"
  let conditions : List String :=
    (if optTruthy criteria.projectKey then
      let pk := criteria.projectKey.getD ""
      if containsSub pk " " || pk.length < 3 then
        ["project in projectsWhere(\"name ~ '" ++ pk ++ "' OR key ~ '" ++ pk ++ "'\")"]
      else
        ["project = \"" ++ pk ++ "\""]
     else []) ++
    (if criteria.assignedToMe then
      ["assignee = currentUser()"]
     else if optTruthy criteria.assigneeEmail then
      let ae := criteria.assigneeEmail.getD ""
      if containsSub ae "@" then
        ["assignee = \"" ++ ae ++ "\""]
      else
        ["assignee in membersOf(\"jira-users\") AND assignee ~ \"" ++ ae ++ "\""]
     else []) ++
    (if optTruthy criteria.statusCategory then
      ["statusCategory = \"" ++ criteria.statusCategory.getD "" ++ "\""]
     else []) ++
    (if optTruthy criteria.status then
      let st := criteria.status.getD ""
      match statusMap.lookup (jsLower st) with
      | some ms =>
        ["(" ++ jsJoin " OR " (ms.map fun s => "status = \"" ++ s ++ "\"") ++ ")"]
      | none => ["status = \"" ++ st ++ "\""]
     else []) ++
    (if optTruthy criteria.priority then
      let pr := criteria.priority.getD ""
      match priorityMap.lookup (jsLower pr) with
      | some ms =>
        ["(" ++ jsJoin " OR " (ms.map fun p => "priority = \"" ++ p ++ "\"") ++ ")"]
      | none => ["priority = \"" ++ pr ++ "\""]
     else []) ++
    (if optTruthy criteria.issueType then
      let it := criteria.issueType.getD ""
      match typeMap.lookup (jsLower it) with
      | some ms =>
        ["(" ++ jsJoin " OR " (ms.map fun t => "issueType = \"" ++ t ++ "\"") ++ ")"]
      | none => ["issueType = \"" ++ it ++ "\""]
     else []) ++
    (if optTruthy criteria.reporter then
      let rp := criteria.reporter.getD ""
      if containsSub rp "@" then
        ["reporter = \"" ++ rp ++ "\""]
      else
        ["reporter in membersOf(\"jira-users\") AND reporter ~ \"" ++ rp ++ "\""]
     else []) ++
    (if criteria.labels.length > 0 then
      let labelConditions := criteria.labels.map fun label => "labels = \"" ++ label ++ "\""
      let labelQuery :=
        if criteria.labelsMatchAll then jsJoin " AND " labelConditions
        else jsJoin " OR " labelConditions
      ["(" ++ labelQuery ++ ")"]
     else []) ++
    (match criteria.recentDays with
     | some d =>
       if d ≠ 0 then ["updated >= -" ++ toString d ++ "d"]
       else
         (if optTruthy criteria.updatedSince then
           ["updated >= \"" ++ criteria.updatedSince.getD "" ++ "\""] else []) ++
         (if optTruthy criteria.updatedBefore then
           ["updated <= \"" ++ criteria.updatedBefore.getD "" ++ "\""] else [])
     | none =>
       (if optTruthy criteria.updatedSince then
         ["updated >= \"" ++ criteria.updatedSince.getD "" ++ "\""] else []) ++
       (if optTruthy criteria.updatedBefore then
         ["updated <= \"" ++ criteria.updatedBefore.getD "" ++ "\""] else [])) ++
    (if optTruthy criteria.createdSince then
      ["created >= \"" ++ criteria.createdSince.getD "" ++ "\""] else []) ++
    (if optTruthy criteria.createdBefore then
      ["created <= \"" ++ criteria.createdBefore.getD "" ++ "\""] else []) ++
    (if optTruthy criteria.text then
      let t := criteria.text.getD ""
      let searchTerms := jsTrimSplitWs t
      if searchTerms.length = 1 then
        ["(summary ~ \"" ++ t ++ "\" OR description ~ \"" ++ t ++
          "\" OR comment ~ \"" ++ t ++ "\")"]
      else
        ["(" ++ jsJoin " AND " (searchTerms.map termSearchGroup) ++ ")"]
     else [])
  let conditions := if conditions.isEmpty then ["updated >= -7d"] else conditions
  jsJoin " AND " conditions ++ " ORDER BY " ++ orderBy

/-- A board record of the Agile API as used by the service: `id`, `name`,
`type` (`"scrum"` or `"kanban"`), and `location?.projectKey` flattened to an
optional field. -/
structure JiraBoard where
  id : Nat
  name : String
  type : String
  locationProjectKey : Option String := none
deriving DecidableEq, Repr

/-- One page of the paginated board-listing endpoint:
`{ values, total, isLast }` (the source defaults absent fields with
`result.values || []`, `result.total || 0`, `result.isLast || false`, which
the record fields already denote). -/
structure BoardsPage where
  values : List JiraBoard := []
  total : Nat := 0
  isLast : Bool := false
deriving DecidableEq, Repr

/-- The pagination loop of `JiraService.getAllBoards (src/jira.service.ts)`.
`server` maps a `startAt` offset to the page the endpoint returns (the `type`
and `name` query options are fixed for the whole loop and abstracted into
`server`).  The do-while loop of the source need not terminate (a server that
keeps answering `isLast: false` with a total larger than what it hands out
loops forever), so the embedding spends one unit of `fuel` per page fetch and
returns `none` when fuel runs out, and additionally counts the fetches. -/
def getAllBoardsGo (server : Nat → BoardsPage) :
    Nat → Nat → List JiraBoard → Nat → Option (BoardsPage × Nat)
  | 0, _, _, _ => none
  | fuel + 1, startAt, allBoards, fetches =>
    let result := server startAt
    let currentPageBoards := result.values
    let allBoards := allBoards ++ currentPageBoards
    let totalCount := result.total
    let isLastPage := result.isLast
    let isLastPage :=
      if !isLastPage && allBoards.length ≥ totalCount then true else isLastPage
    if isLastPage then some (⟨allBoards, totalCount, true⟩, fetches + 1)
    else getAllBoardsGo server fuel (startAt + 50) allBoards (fetches + 1)

/-- Embedding of `JiraService.getAllBoards`: start at offset 0 with the fixed page size 50.
Returns the final `{ values, total, isLast }` envelope paired with the number
of page fetches performed. -/
def getAllBoards (server : Nat → BoardsPage) (fuel : Nat) :
    Option (BoardsPage × Nat) :=
  getAllBoardsGo server fuel 0 [] 0

/-- The sprint-state priority used when sorting aggregated sprints:
`{ active: 1, future: 2, closed: 3 }`. -/
def stateOrder : SprintState → Nat
  | .active => 1
  | .future => 2
  | .closed => 3

/-- The board filter of `getAvailableSprintsForTicket`: keep a board when
`board.location?.projectKey === projectKey` or
`board.name?.toLowerCase().includes(projectKey.toLowerCase())`. -/
def matchesProject (projectKey : String) (b : JiraBoard) : Bool :=
  b.locationProjectKey == some projectKey ||
  containsSub (jsLower b.name) (jsLower projectKey)

/-- The board-prioritization comparator of `getAvailableSprintsForTicket` as a
non-strict order: Scrum boards before non-Scrum boards, then by name
(`localeCompare`, modelled as code-point order). -/
def boardLE (a b : JiraBoard) : Bool :=
  if a.type == "scrum" && !(b.type == "scrum") then true
  else if b.type == "scrum" && !(a.type == "scrum") then false
  else jsStrLe a.name b.name

/-- Relation form of `boardLE`, for `List.insertionSort` (a stable sort, like
`Array.prototype.sort`). -/
def boardRel : JiraBoard → JiraBoard → Prop := fun a b => boardLE a b = true

instance : DecidableRel boardRel := fun a b => instDecidableEqBool (boardLE a b) true

/-- The sprint-sorting comparator of `getAvailableSprintsForTicket` as a
non-strict order: by `stateOrder`, then by `(name || '')` (`localeCompare`,
modelled as code-point order). -/
def sprintLE (a b : JiraSprint) : Bool :=
  if stateOrder a.state = stateOrder b.state then
    jsStrLe (a.name.getD "") (b.name.getD "")
  else decide (stateOrder a.state < stateOrder b.state)

/-- Relation form of `sprintLE`, for `List.insertionSort`. -/
def sprintRel : JiraSprint → JiraSprint → Prop := fun a b => sprintLE a b = true

instance : DecidableRel sprintRel := fun a b => instDecidableEqBool (sprintLE a b) true

/-- The deduplication filter of `getAvailableSprintsForTicket`:
`allSprints.filter((sprint, index, self) => sprint.name && index ===
self.findIndex((s) => s.id === sprint.id))` — keep an element when its name
is truthy and its index equals the index of the first element bearing its id.
-/
def uniqueNamedSprints (allSprints : List JiraSprint) : List JiraSprint :=
  (allSprints.enum.filter fun p =>
    optTruthy p.2.name && allSprints.findIdx (fun s => s.id == p.2.id) == p.1).map
    (·.2)

/-- The per-board display format used in the board-list hints:
`"name" (ID: id, Type: type)`. -/
def boardDisplay (b : JiraBoard) : String :=
  "\"" ++ b.name ++ "\" (ID: " ++ toString b.id ++ ", Type: " ++ b.type ++ ")"

/-- The per-board error line recorded when fetching one board's sprints
throws: `Error fetching sprints for board "name" (ID: id): error`.  The
`error` argument is the string rendering of the caught exception. -/
def boardErrorLine (b : JiraBoard) (e : String) : String :=
  "Error fetching sprints for board \"" ++ b.name ++ "\" (ID: " ++
    toString b.id ++ "): " ++ e

/-- The per-board accumulation step of `getAvailableSprintsForTicket`'s fetch
loop: a success appends the board's sprints, a failure appends the recorded
error line and continues with the other boards. -/
def sprintFetchStep (fetchSprints : Nat → Except String (List JiraSprint))
    (acc : List JiraSprint × List String) (b : JiraBoard) :
    List JiraSprint × List String :=
  match fetchSprints b.id with
  | .ok vs => (acc.1 ++ vs, acc.2)
  | .error e => (acc.1, acc.2 ++ [boardErrorLine b e])

/-- Embedding of `JiraService.getAvailableSprintsForTicket (src/jira.service.ts)`, from the
point where the ticket's project key is known.  `allBoards` is the full board
list the (deterministic, repeated) `getAllBoards` call yields; `fetchSprints`
maps a board id to the outcome of `getSprintsForBoard` for it (its `values`,
or the rendered thrown error). -/
def getAvailableSprintsForTicket (projectKey : String) (allBoards : List JiraBoard)
    (fetchSprints : Nat → Except String (List JiraSprint)) :
    Except String (List JiraSprint) :=
  let projectBoards := allBoards.filter (matchesProject projectKey)
  if projectBoards.isEmpty then
    .error ("No boards found for project " ++ projectKey ++
      ". Available boards: " ++
      jsJoin ", " ((allBoards.take 50).map boardDisplay) ++
      ". Consider using boardId parameter to specify the exact board.")
  else
    let prioritizedBoards := projectBoards.insertionSort boardRel
    let folded := prioritizedBoards.foldl (sprintFetchStep fetchSprints) ([], [])
    let allSprints := folded.1
    let boardErrors := folded.2
    if allSprints.isEmpty then
      .error ("No sprints found for project " ++ projectKey ++
        ". Checked boards: " ++ jsJoin ", " (prioritizedBoards.map boardDisplay) ++
        "." ++
        (if boardErrors.length > 0 then
          "\nErrors encountered: " ++ jsJoin "; " boardErrors
         else ""))
    else
      .ok ((uniqueNamedSprints allSprints).insertionSort sprintRel)

/-- The classification of a parsed diff line. -/
inductive DiffLineType
  | add
  | remove
  | context
deriving DecidableEq, Repr

/-- One parsed line of a hunk: its class, derived old/new line numbers where
applicable, and the raw line text. -/
structure DiffLine where
  type : DiffLineType
  oldLine : Option Nat := none
  newLine : Option Nat := none
  content : String
deriving DecidableEq, Repr

/-- A parsed hunk (`ParsedHunk` of `src/gitlab.ts`): the raw header line, the
four numeric header fields, the parsed lines, and the UI flag `isCollapsed`
(always `false` out of the parser). -/
structure ParsedHunk where
  header : String
  oldStartLine : Nat
  oldLineCount : Nat
  newStartLine : Nat
  newLineCount : Nat
  lines : List DiffLine := []
  isCollapsed : Bool := false
deriving DecidableEq, Repr

/-- Decimal value of a digit run (the regex only captures digits). -/
def digitsVal (ds : List Char) : Nat :=
  ds.foldl (fun a c => a * 10 + (c.toNat - 48)) 0

/-- The optional `,count` group of the hunk-header pattern: succeeds on a
comma followed by at least one digit. -/
def parseCount : List Char → Option (Nat × List Char)
  | ',' :: rest =>
    let spanned := rest.span Char.isDigit
    if spanned.1.isEmpty then none else some (digitsVal spanned.1, spanned.2)
  | _ => none

/-- The hunk-header pattern of `parseDiff`:
`@@ -old[,oldCount] +new[,newCount] @@` followed by anything, anchored at the
start of the line; omitted count groups default to `1`
(`parseInt(headerMatch[2] || '1', 10)`).  Returns
`(oldStart, oldCount, newStart, newCount)`. -/
def parseHunkHeader (line : String) : Option (Nat × Nat × Nat × Nat) :=
  match line.data with
  | '@' :: '@' :: ' ' :: '-' :: rest =>
    let s1 := rest.span Char.isDigit
    if s1.1.isEmpty then none
    else
      let oldStart := digitsVal s1.1
      let withOld :=
        match parseCount s1.2 with
        | some (b, r) => (b, r)
        | none => (1, s1.2)
      match withOld.2 with
      | ' ' :: '+' :: r3 =>
        let s3 := r3.span Char.isDigit
        if s3.1.isEmpty then none
        else
          let newStart := digitsVal s3.1
          let withNew :=
            match parseCount s3.2 with
            | some (d, r) => (d, r)
            | none => (1, s3.2)
          match withNew.2 with
          | ' ' :: '@' :: '@' :: _ => some (oldStart, withOld.1, newStart, withNew.1)
          | _ => none
      | _ => none
  | _ => none

/-- Does the string start with the given character? -/
def startsWithChar (s : String) (c : Char) : Bool :=
  match s.data with
  | d :: _ => d = c
  | [] => false

/-- The per-line classification of `parseDiff`, relative to the current hunk:
a `+` line is an `add` whose new-line number is `newStartLine` plus the count
of lines of the hunk so far that are not `remove`; a `-` line is a `remove`
whose old-line number is `oldStartLine` plus the count of lines so far that
are not `add`; any other line is a `context` line carrying both numbers. -/
def classifyLine (h : ParsedHunk) (line : String) : DiffLine :=
  if startsWithChar line '+' then
    { type := .add,
      oldLine := none,
      newLine := some (h.newStartLine +
        (h.lines.filter fun l => decide (l.type ≠ .remove)).length),
      content := line }
  else if startsWithChar line '-' then
    { type := .remove,
      oldLine := some (h.oldStartLine +
        (h.lines.filter fun l => decide (l.type ≠ .add)).length),
      newLine := none,
      content := line }
  else
    { type := .context,
      oldLine := some (h.oldStartLine +
        (h.lines.filter fun l => decide (l.type ≠ .add)).length),
      newLine := some (h.newStartLine +
        (h.lines.filter fun l => decide (l.type ≠ .remove)).length),
      content := line }

/-- JavaScript `diff.split("\n")` (`splitNlGo cs acc` accumulates the current
segment in reverse in `acc`). -/
def splitNlGo : List Char → List Char → List String
  | [], acc => [⟨acc.reverse⟩]
  | c :: cs, acc =>
    if c = '\n' then (⟨acc.reverse⟩ : String) :: splitNlGo cs []
    else splitNlGo cs (c :: acc)

/-- JavaScript `diff.split("\n")`. -/
def jsSplitNl (s : String) : List String := splitNlGo s.data []

/-- The line loop of `GitLabService.parseDiff (src/gitlab.service.ts)`: a line
matching the hunk-header pattern pushes any open hunk and opens a new one; a
line starting with `@@` that does not match the pattern is skipped; any other
line is classified into the open hunk (and dropped when no hunk is open). -/
def parseDiffGo : List String → Option ParsedHunk → List ParsedHunk
  | [], none => []
  | [], some h => [h]
  | line :: rest, currentHunk =>
    if startsWithChar line '@' && startsWithChar ⟨line.data.drop 1⟩ '@' then
      match parseHunkHeader line with
      | some (a, b, c, d) =>
        let newHunk : ParsedHunk :=
          { header := line, oldStartLine := a, oldLineCount := b,
            newStartLine := c, newLineCount := d, lines := [], isCollapsed := false }
        match currentHunk with
        | some h => h :: parseDiffGo rest (some newHunk)
        | none => parseDiffGo rest (some newHunk)
      | none => parseDiffGo rest currentHunk
    else
      match currentHunk with
      | some h =>
        parseDiffGo rest (some { h with lines := h.lines ++ [classifyLine h line] })
      | none => parseDiffGo rest none

/-- Embedding of `GitLabService.parseDiff (src/gitlab.service.ts)`. -/
def parseDiff (diff : String) : List ParsedHunk :=
  parseDiffGo (jsSplitNl diff) none

/-- The allowed-value catalog `[Low, Medium, High, Critical]` of the spec's
allowed-value-resolution example. -/
def lmhcOptions : List AllowedOption :=
  [⟨some "Low", none⟩, ⟨some "Medium", none⟩,
   ⟨some "High", none⟩, ⟨some "Critical", none⟩]

/-- A one-sprint catalog whose only name is 10 characters away from the input
`"abc"`. -/
def cexSprints : List JiraSprint := [⟨1, some "0123456789", .active⟩]

/-- A field catalog whose single (hence minimum-distance) entry has an empty
`id`. -/
def cexFields : List JiraField := [⟨"", "status"⟩]

/-- A two-entry field catalog with non-empty ids. -/
def sampleFields : List JiraField :=
  [⟨"customfield_1", "Story Points"⟩, ⟨"summary", "Summary"⟩]

/-- Sample boards for the pagination and aggregation scenarios. -/
def boardAlpha : JiraBoard := ⟨1, "Alpha", "scrum", some "P"⟩

/-- Second sample board. -/
def boardBeta : JiraBoard := ⟨2, "Beta", "kanban", some "P"⟩

/-- Third sample board. -/
def boardGamma : JiraBoard := ⟨3, "Gamma", "scrum", none⟩

/-- Fourth sample board. -/
def boardDelta : JiraBoard := ⟨4, "Delta", "kanban", none⟩

/-- A server serving two pages of two boards each (total 4), with `isLast`
`false` on the first page and `true` on the second. -/
def twoPageServer : Nat → BoardsPage := fun startAt =>
  if startAt = 0 then ⟨[boardAlpha, boardBeta], 4, false⟩
  else if startAt = 50 then ⟨[boardGamma, boardDelta], 4, true⟩
  else ⟨[], 0, true⟩

/-- The same two pages but with `isLast` `true` on the first page and `false`
on the second — the order in which the claim's example words it. -/
def twoPageServerClaimOrder : Nat → BoardsPage := fun startAt =>
  if startAt = 0 then ⟨[boardAlpha, boardBeta], 4, true⟩
  else if startAt = 50 then ⟨[boardGamma, boardDelta], 4, false⟩
  else ⟨[], 0, true⟩

/-- A sprint fetch whose only board returns a nameless sprint followed by a
named sprint with the same id. -/
def shadowedFetch : Nat → Except String (List JiraSprint) := fun _ =>
  .ok [⟨7, none, .active⟩, ⟨7, some "Sprint A", .active⟩]

/-- A sprint fetch failing on board 1 and succeeding on every other board. -/
def failingFirstFetch : Nat → Except String (List JiraSprint) := fun id =>
  if id = 1 then .error "Error: Agile API request failed: 500 Internal Server Error"
  else .ok [⟨5, some "S5", .active⟩]

/-- A fetch delivering duplicate ids and a nameless sprint, to exercise
deduplication, the name filter and sorting. -/
def mixedFetch : Nat → Except String (List JiraSprint) := fun _ =>
  .ok [⟨10, some "Zed", .closed⟩, ⟨11, some "Ann", .closed⟩,
       ⟨10, some "ZedDup", .active⟩, ⟨12, none, .active⟩, ⟨13, some "Act", .active⟩]

/-- The two-hunk unified diff of the spec's diff-parser example; the second
hunk omits both count fields. -/
def twoHunkDiff : String :=
  "@@ -1,2 +3,4 @@ hdr\n ctx\n-del\n+ins\n@@ -7 +9 @@\n tail"

/-- The numbering discipline claimed for the line at index `i` of a hunk
(`l` is that line): a `+` line is an `add` numbered `newStartLine` plus the
count of preceding non-`remove` lines, a `-` line is a `remove` numbered
`oldStartLine` plus the count of preceding non-`add` lines, and any other
line is a `context` line carrying both numbers. -/
def lineSpecAt (h : ParsedHunk) (i : Nat) (l : DiffLine) : Prop :=
  (startsWithChar l.content '+' = true →
    l.type = .add ∧ l.oldLine = none ∧
    l.newLine = some (h.newStartLine +
      ((h.lines.take i).filter fun t => decide (t.type ≠ .remove)).length)) ∧
  (startsWithChar l.content '+' = false → startsWithChar l.content '-' = true →
    l.type = .remove ∧ l.newLine = none ∧
    l.oldLine = some (h.oldStartLine +
      ((h.lines.take i).filter fun t => decide (t.type ≠ .add)).length)) ∧
  (startsWithChar l.content '+' = false → startsWithChar l.content '-' = false →
    l.type = .context ∧
    l.oldLine = some (h.oldStartLine +
      ((h.lines.take i).filter fun t => decide (t.type ≠ .add)).length) ∧
    l.newLine = some (h.newStartLine +
      ((h.lines.take i).filter fun t => decide (t.type ≠ .remove)).length))

/-- A hunk all of whose lines obey the numbering discipline. -/
def hunkWF (h : ParsedHunk) : Prop :=
  ∀ i l, h.lines.get? i = some l → lineSpecAt h i l

/-- The seen-set formulation of the deduplication filter: an element of the
list passes exactly when it has a (truthy) name and no earlier element bears
its id; `seen` carries the ids of all elements already scanned. -/
def dedupGo : List JiraSprint → List Nat → List JiraSprint
  | [], _ => []
  | s :: rest, seen =>
    if s.id ∈ seen then dedupGo rest seen
    else if optTruthy s.name then s :: dedupGo rest (s.id :: seen)
    else dedupGo rest (s.id :: seen)

/-- The sprints one board contributes to the aggregation: the fetched values
on success, nothing on failure. -/
def sprintsOf (fetchSprints : Nat → Except String (List JiraSprint))
    (b : JiraBoard) : List JiraSprint :=
  match fetchSprints b.id with
  | .ok vs => vs
  | .error _ => []

/-- The first hunk `parseDiff` produces from `twoHunkDiff`. -/
def twoHunkDiffHunk1 : ParsedHunk :=
  { header := "@@ -1,2 +3,4 @@ hdr", oldStartLine := 1, oldLineCount := 2,
    newStartLine := 3, newLineCount := 4,
    lines := [
      { type := .context, oldLine := some 1, newLine := some 3, content := " ctx" },
      { type := .remove, oldLine := some 2, newLine := none, content := "-del" },
      { type := .add, oldLine := none, newLine := some 4, content := "+ins" }],
    isCollapsed := false }

/-- The second hunk `parseDiff` produces from `twoHunkDiff`: its header omits
both count fields, which default to 1, and its only (hence last) line is a
context line. -/
def twoHunkDiffHunk2 : ParsedHunk :=
  { header := "@@ -7 +9 @@", oldStartLine := 7, oldLineCount := 1,
    newStartLine := 9, newLineCount := 1,
    lines := [
      { type := .context, oldLine := some 7, newLine := some 9, content := " tail" }],
    isCollapsed := false }

/-- First characterization half of the fuzzy loop: folding from an
already-chosen candidate yields a member (or the seed) realizing its own
distance, no farther than the seed and no farther than any later candidate.
-/
theorem bestByDist_fold {α : Type} (dist : α → Nat) :
    ∀ (xs : List α) (bo : α),
      ∃ o, (o = bo ∨ o ∈ xs) ∧
        xs.foldl
          (fun acc o' =>
            let d := dist o'
            match acc with
            | none => some (o', d)
            | some (b, bd) => if d < bd then some (o', d) else some (b, bd))
          (some (bo, dist bo)) = some (o, dist o) ∧
        dist o ≤ dist bo ∧ ∀ p ∈ xs, dist o ≤ dist p := by
  intro xs
  induction xs with
  | nil =>
    intro bo
    exact ⟨bo, Or.inl rfl, rfl, Nat.le_refl _, by simp⟩
  | cons y ys ih =>
    intro bo
    by_cases h : dist y < dist bo
    · obtain ⟨o, homem, hfold, hole, hall⟩ := ih y
      refine ⟨o, ?_, ?_, ?_, ?_⟩
      · rcases homem with rfl | hin
        · exact Or.inr (List.mem_cons_self _ _)
        · exact Or.inr (List.mem_cons_of_mem _ hin)
      · simpa [List.foldl_cons, h] using hfold
      · exact Nat.le_trans hole (Nat.le_of_lt h)
      · intro p hp
        rcases List.mem_cons.mp hp with rfl | hin
        · exact hole
        · exact hall p hin
    · obtain ⟨o, homem, hfold, hole, hall⟩ := ih bo
      refine ⟨o, ?_, ?_, ?_, ?_⟩
      · rcases homem with rfl | hin
        · exact Or.inl rfl
        · exact Or.inr (List.mem_cons_of_mem _ hin)
      · simpa [List.foldl_cons, h] using hfold
      · exact hole
      · intro p hp
        rcases List.mem_cons.mp hp with rfl | hin
        · exact Nat.le_trans hole (Nat.le_of_not_lt h)
        · exact hall p hin

/-- The fuzzy loop on a non-empty candidate list returns a member of the list
realizing the minimum distance (first-seen wins on ties). -/
theorem bestByDist_spec {α : Type} (dist : α → Nat) (l : List α) (hne : l ≠ []) :
    ∃ o, o ∈ l ∧ bestByDist dist l = some (o, dist o) ∧
      ∀ p ∈ l, dist o ≤ dist p := by
  match l, hne with
  | x :: xs, _ =>
    obtain ⟨o, homem, hfold, hole, hall⟩ := bestByDist_fold dist xs x
    refine ⟨o, ?_, ?_, ?_⟩
    · rcases homem with rfl | hin
      · exact List.mem_cons_self _ _
      · exact List.mem_cons_of_mem _ hin
    · simpa [bestByDist, List.foldl_cons] using hfold
    · intro p hp
      rcases List.mem_cons.mp hp with rfl | hin
      · exact hole
      · exact hall p hin

/-- C1.  Allowed-value resolution: against the catalog
`[Low, Medium, High, Critical]` the input `"hi"` resolves to the option
labelled `"High"`; and whenever an input has no exact normalized match and
every option's distance exceeds the strict threshold
`max(min(length(normalizedInput), 4), 2)`, `findBestMatchingOption` fails
with the no-close-match error listing the option labels joined with `", "`
in catalog order. -/
theorem findBestMatchingOption_rejects_far_inputs
    (input : String) (opts : List AllowedOption)
    (hne : opts ≠ [])
    (hexact : opts.find? (fun o => optionExactMatches (normalizeLT input) o) = none)
    (hfar : ∀ o ∈ opts,
      max (min (normalizeLT input).length 4) 2 <
        levenshteinDistance (normalizeLT input) (jsLower (optionLabel o))) :
    findBestMatchingOption "hi" lmhcOptions = .ok ⟨some "High", none⟩ ∧
    findBestMatchingOption input opts =
      .error ("No close match found for \"" ++ input ++
        "\". Available options: " ++ jsJoin ", " (opts.map optionLabel)) := by
  refine ⟨by decide, ?_⟩
  obtain ⟨o, hmem, hbest, _⟩ :=
    bestByDist_spec
      (fun o => levenshteinDistance (normalizeLT input) (jsLower (optionLabel o)))
      opts hne
  have hemp : opts.isEmpty = false := by
    cases opts with
    | nil => exact absurd rfl hne
    | cons a l => rfl
  have hgt := hfar o hmem
  simp only [findBestMatchingOption, hemp, Bool.false_eq_true, if_false, hexact, hbest]
  rw [if_pos hgt]

/-- C1 witness: the hypotheses hold at `"xyz123"` against
`[Low, Medium, High, Critical]`, where the error lists exactly
`Low, Medium, High, Critical`. -/
theorem findBestMatchingOption_rejects_far_inputs_witness :
    (findBestMatchingOption "hi" lmhcOptions = .ok ⟨some "High", none⟩ ∧
      findBestMatchingOption "xyz123" lmhcOptions =
        .error ("No close match found for \"xyz123\". Available options: " ++
          jsJoin ", " (lmhcOptions.map optionLabel))) ∧
    jsJoin ", " (lmhcOptions.map optionLabel) = "Low, Medium, High, Critical" :=
  ⟨findBestMatchingOption_rejects_far_inputs "xyz123" lmhcOptions
      (by decide) (by decide) (by decide),
    by decide⟩

/-- C10.  Exact-match short-circuit: whenever the first candidate whose
lowercased, trimmed label equals the lowercased, trimmed input exists, both
resolvers return exactly that candidate, regardless of the other candidates
and without any threshold entering. -/
theorem exactMatch_short_circuit
    (inputO : String) (opts : List AllowedOption) (o : AllowedOption)
    (inputS : String) (sprints : List JiraSprint) (s : JiraSprint)
    (ho : opts.find? (fun x => optionExactMatches (normalizeLT inputO) x) = some o)
    (hs : sprints.find? (fun x => sprintExactMatches (normalizeLT inputS) x) = some s) :
    findBestMatchingOption inputO opts = .ok o ∧
    findBestMatchingSprint inputS sprints = .ok s := by
  constructor
  · have hemp : opts.isEmpty = false := by
      cases opts with
      | nil => simp at ho
      | cons a l => rfl
    simp only [findBestMatchingOption, hemp, Bool.false_eq_true, if_false, ho]
  · have hemp : sprints.isEmpty = false := by
      cases sprints with
      | nil => simp at hs
      | cons a l => rfl
    simp only [findBestMatchingSprint, hemp, Bool.false_eq_true, if_false, hs]

/-- C10 witness: `"  HIGH  "` short-circuits to the `High` option even though
the threshold would also admit it, and `" sprint a "` short-circuits to the
first sprint named `Sprint A` even though a second sprint carries the same
name. -/
theorem exactMatch_short_circuit_witness :
    findBestMatchingOption "  HIGH  " lmhcOptions = .ok ⟨some "High", none⟩ ∧
    findBestMatchingSprint " sprint a "
        [⟨7, none, .active⟩, ⟨8, some "Sprint A", .future⟩,
         ⟨9, some "Sprint A", .closed⟩] =
      .ok ⟨8, some "Sprint A", .future⟩ :=
  exactMatch_short_circuit "  HIGH  " lmhcOptions ⟨some "High", none⟩
    " sprint a "
    [⟨7, none, .active⟩, ⟨8, some "Sprint A", .future⟩, ⟨9, some "Sprint A", .closed⟩]
    ⟨8, some "Sprint A", .future⟩ (by decide) (by decide)

/-- C2 counterexample: against the one-sprint catalog `[0123456789 (active)]`
and input `"abc"` there is no exact match, the minimum-distance sprint is at
distance `10`, which the claim's lenient threshold
`max(length(normalizedInput) * 2, 10) = 10` admits — yet the resolver
rejects (the source threshold is `max(min(length * 2, 10), 4) = 6`). -/
theorem findBestMatchingSprint_claimed_threshold_counterexample :
    cexSprints ≠ [] ∧
    cexSprints.find? (fun x => sprintExactMatches (normalizeLT "abc") x) = none ∧
    levenshteinDistance (normalizeLT "abc") (jsLower ((cexSprints.get ⟨0, by decide⟩).name.getD "")) = 10 ∧
    10 ≤ max ((normalizeLT "abc").length * 2) 10 ∧
    findBestMatchingSprint "abc" cexSprints =
      .error "No close match found for \"abc\". Available sprints: 0123456789 (active)" := by
  decide

/-- C2 as amended.  Sprint-name resolution on a non-empty list with no exact
normalized match: some minimum-distance sprint is returned exactly when its
distance is at most `max(min(length(normalizedInput) * 2, 10), 4)` (not
`max(length * 2, 10)`); otherwise the resolver fails with the no-close-match
error listing at most the first 10 sprints as `name (state)` plus a count of
the remaining omitted sprints. -/
theorem findBestMatchingSprint_threshold_spec
    (input : String) (sprints : List JiraSprint)
    (hne : sprints ≠ [])
    (hexact : sprints.find? (fun x => sprintExactMatches (normalizeLT input) x) = none) :
    ∃ best, best ∈ sprints ∧
      (∀ p ∈ sprints,
        levenshteinDistance (normalizeLT input) (jsLower (best.name.getD "")) ≤
          levenshteinDistance (normalizeLT input) (jsLower (p.name.getD ""))) ∧
      findBestMatchingSprint input sprints =
        (if levenshteinDistance (normalizeLT input) (jsLower (best.name.getD "")) ≤
            max (min ((normalizeLT input).length * 2) 10) 4 then
          .ok best
        else .error (sprintNoCloseMatchMsg input sprints)) := by
  obtain ⟨best, hmem, hbest, hmin⟩ :=
    bestByDist_spec
      (fun s => levenshteinDistance (normalizeLT input) (jsLower (s.name.getD "")))
      sprints hne
  have hemp : sprints.isEmpty = false := by
    cases sprints with
    | nil => exact absurd rfl hne
    | cons a l => rfl
  refine ⟨best, hmem, hmin, ?_⟩
  simp only [findBestMatchingSprint, hemp, Bool.false_eq_true, if_false, hexact, hbest]
  by_cases hle :
      levenshteinDistance (normalizeLT input) (jsLower (best.name.getD "")) ≤
        max (min ((normalizeLT input).length * 2) 10) 4
  · rw [if_pos hle, if_neg (Nat.not_lt.mpr hle)]
  · rw [if_neg hle, if_pos (Nat.lt_of_not_le hle)]

/-- C2 witness: a twelve-sprint catalog and the input `"delivery sprint 13"`;
the minimum-distance sprint `Delivery Sprint 12` is at distance 2, within the
threshold, and is returned.  (The rejection branch of the same theorem is
exercised by the separate counterexample input.) -/
theorem findBestMatchingSprint_threshold_spec_witness :
    (∃ best, best ∈ [(⟨21, some "Delivery Sprint 12", .active⟩ : JiraSprint),
        ⟨22, some "Hardening", .future⟩] ∧
      (∀ p ∈ [(⟨21, some "Delivery Sprint 12", .active⟩ : JiraSprint),
          ⟨22, some "Hardening", .future⟩],
        levenshteinDistance (normalizeLT "delivery sprint 13")
            (jsLower (best.name.getD "")) ≤
          levenshteinDistance (normalizeLT "delivery sprint 13")
            (jsLower (p.name.getD ""))) ∧
      findBestMatchingSprint "delivery sprint 13"
          [⟨21, some "Delivery Sprint 12", .active⟩, ⟨22, some "Hardening", .future⟩] =
        (if levenshteinDistance (normalizeLT "delivery sprint 13")
              (jsLower (best.name.getD "")) ≤
            max (min ((normalizeLT "delivery sprint 13").length * 2) 10) 4 then
          .ok best
        else .error (sprintNoCloseMatchMsg "delivery sprint 13"
          [⟨21, some "Delivery Sprint 12", .active⟩, ⟨22, some "Hardening", .future⟩]))) ∧
    findBestMatchingSprint "delivery sprint 13"
        [⟨21, some "Delivery Sprint 12", .active⟩, ⟨22, some "Hardening", .future⟩] =
      .ok ⟨21, some "Delivery Sprint 12", .active⟩ :=
  ⟨findBestMatchingSprint_threshold_spec "delivery sprint 13"
      [⟨21, some "Delivery Sprint 12", .active⟩, ⟨22, some "Hardening", .future⟩]
      (by decide) (by decide),
    by decide⟩

/-- The head of a stable sort is a member of the list attaining the relation
against every member. -/
theorem insertionSort_head_min {α : Type} (r : α → α → Prop) [DecidableRel r]
    [IsTotal α r] [IsTrans α r] (l : List α) (x : α) (xs : List α)
    (h : l.insertionSort r = x :: xs) : x ∈ l ∧ ∀ y ∈ l, r x y := by
  have hperm : (l.insertionSort r).Perm l := List.perm_insertionSort r l
  have hsorted : List.Sorted r (l.insertionSort r) := List.sorted_insertionSort r l
  rw [h] at hperm hsorted
  constructor
  · exact hperm.mem_iff.mp (List.mem_cons_self _ _)
  · intro y hy
    have hy' : y ∈ x :: xs := hperm.mem_iff.mpr hy
    rcases List.mem_cons.mp hy' with rfl | hin
    · rcases @IsTotal.total _ r _ y y with h' | h' <;> exact h'
    · exact (List.sorted_cons.mp hsorted).1 y hin

/-- C9 counterexample: the one-entry catalog whose entry has an empty
identifier is non-empty, yet `getFieldId` fails with the field-not-found
error. -/
theorem getFieldId_empty_id_counterexample :
    cexFields ≠ [] ∧
    getFieldId "status" cexFields =
      .error "Could not find a field named \"status\" in Jira." := by
  decide

/-- C9 as amended.  Field-name resolution: on a non-empty catalog the
minimum-distance entry is selected with no threshold-based rejection; the
resolver returns its identifier when that identifier is non-empty and fails
with the field-not-found error when it is empty (on the empty catalog it
fails with the no-fields error). -/
theorem getFieldId_total_resolution
    (fieldName : String) (fields : List JiraField) (hne : fields ≠ []) :
    ∃ best, best ∈ fields ∧
      (∀ g ∈ fields,
        levenshteinDistance (normalizeFieldName fieldName) (normalizeFieldName best.name) ≤
          levenshteinDistance (normalizeFieldName fieldName) (normalizeFieldName g.name)) ∧
      getFieldId fieldName fields =
        (if best.id = "" then
          .error ("Could not find a field named \"" ++ fieldName ++ "\" in Jira.")
        else .ok best.id) := by
  set d := fun f : JiraField =>
    levenshteinDistance (normalizeFieldName fieldName) (normalizeFieldName f.name) with hd
  set pairs := fields.map (fun field => (field, d field)) with hpairs
  have hpne : pairs ≠ [] := by
    cases fields with
    | nil => exact absurd rfl hne
    | cons a l => simp [hpairs]
  have hsne : pairs.insertionSort fieldDistRel ≠ [] := by
    intro hnil
    have := (List.perm_insertionSort fieldDistRel pairs).length_eq
    rw [hnil] at this
    exact hpne (List.length_eq_zero.mp this.symm)
  obtain ⟨x, xs, hx⟩ := List.exists_cons_of_ne_nil hsne
  obtain ⟨hxmem, hxmin⟩ := insertionSort_head_min fieldDistRel pairs x xs hx
  obtain ⟨f, hfmem, hfx⟩ := List.mem_map.mp hxmem
  refine ⟨f, hfmem, ?_, ?_⟩
  · intro g hg
    have hgp : (g, d g) ∈ pairs := List.mem_map.mpr ⟨g, hg, rfl⟩
    have := hxmin (g, d g) hgp
    rw [← hfx] at this
    exact this
  · simp only [getFieldId]
    have hrw : (fields.map fun field =>
        (field, levenshteinDistance (normalizeFieldName fieldName)
          (normalizeFieldName field.name))) = pairs := rfl
    rw [hrw, hx, ← hfx]

/-- C9 witness: against the catalog `[Story Points, Summary]` the hypotheses
hold for the input `"story_points"` and the resolver returns
`customfield_1`, the identifier of the minimum-distance entry. -/
theorem getFieldId_total_resolution_witness :
    (∃ best, best ∈ sampleFields ∧
      (∀ g ∈ sampleFields,
        levenshteinDistance (normalizeFieldName "story_points")
            (normalizeFieldName best.name) ≤
          levenshteinDistance (normalizeFieldName "story_points")
            (normalizeFieldName g.name)) ∧
      getFieldId "story_points" sampleFields =
        (if best.id = "" then
          .error ("Could not find a field named \"story_points\" in Jira.")
        else .ok best.id)) ∧
    getFieldId "story_points" sampleFields = .ok "customfield_1" :=
  ⟨getFieldId_total_resolution "story_points" sampleFields (by decide), by decide⟩

/-- C3 counterexample: for the priority criterion `"urgent"` the generated
query's OR-group is `(priority = "Urgent" OR priority = "High" OR
priority = "Highest")` and the query nowhere contains `Critical` — the
claimed synonym set `{High, Highest, Critical, Urgent}` is the table's
`"high"` entry, not its `"urgent"` entry. -/
theorem buildSearchJQL_urgent_counterexample :
    buildSearchJQL { priority := some "urgent" } =
      "(priority = \"Urgent\" OR priority = \"High\" OR priority = \"Highest\") ORDER BY updated DESC" ∧
    containsSub (buildSearchJQL { priority := some "urgent" }) "Critical" = false ∧
    priorityMap.lookup "urgent" = some ["Urgent", "High", "Highest"] := by
  decide

/-- C3 as amended.  Priority expansion in `searchTickets`: the lowercase form
`"urgent"` expands to the OR-group over exactly `{Urgent, High, Highest}` (in
that order); any priority text missing from the synonym table passes through
as the single exact condition `priority = "<raw text>"` with no fuzzy
fallback. -/
theorem buildSearchJQL_priority_spec
    (p : String) (hp : p ≠ "")
    (hmiss : priorityMap.lookup (jsLower p) = none) :
    buildSearchJQL { priority := some "urgent" } =
      "(priority = \"Urgent\" OR priority = \"High\" OR priority = \"Highest\") ORDER BY updated DESC" ∧
    buildSearchJQL { priority := some p } =
      "priority = \"" ++ p ++ "\" ORDER BY updated DESC" := by
  refine ⟨by decide, ?_⟩
  simp only [buildSearchJQL, optTruthy, truthyOr, hmiss, hp, Option.getD_some,
    ne_eq, not_false_eq_true, if_true, if_false,
    Bool.false_eq_true, List.nil_append, List.append_nil, List.isEmpty_cons,
    jsJoin]
  simp only [String.append_assoc]
  congr 1

/-- C3 witness: `"Blocker"` is not a key of the table (`jsLower "Blocker" =
"blocker"`), so the query carries it literally. -/
theorem buildSearchJQL_priority_spec_witness :
    (buildSearchJQL { priority := some "urgent" } =
      "(priority = \"Urgent\" OR priority = \"High\" OR priority = \"Highest\") ORDER BY updated DESC" ∧
    buildSearchJQL { priority := some "Blocker" } =
      "priority = \"" ++ "Blocker" ++ "\" ORDER BY updated DESC") ∧
    buildSearchJQL { priority := some "Blocker" } =
      "priority = \"Blocker\" ORDER BY updated DESC" :=
  ⟨buildSearchJQL_priority_spec "Blocker" (by decide) (by decide), by decide⟩

/-- C8.  Free-text composition in `searchTickets`: a single-token text
criterion yields one parenthesized OR over summary, description and comment
(carrying the raw criterion text); a multi-token criterion yields one outer
parenthesis AND-joining, per token, the same three-field OR-group — each
token must match at least one of the three fields independently. -/
theorem buildSearchJQL_text_spec
    (t : String) (ht : t ≠ "") (w : String) (ts : List String)
    (u : String) (hu : u ≠ "")
    (hsingle : jsTrimSplitWs t = [w])
    (hmulti : jsTrimSplitWs u = ts) (hts : 2 ≤ ts.length) :
    buildSearchJQL { text := some t } =
      "(summary ~ \"" ++ t ++ "\" OR description ~ \"" ++ t ++
        "\" OR comment ~ \"" ++ t ++ "\") ORDER BY updated DESC" ∧
    buildSearchJQL { text := some u } =
      "(" ++ jsJoin " AND " (ts.map termSearchGroup) ++ ") ORDER BY updated DESC" := by
  constructor
  · simp only [buildSearchJQL, optTruthy, truthyOr, hsingle, ht, Option.getD_some,
      ne_eq, not_false_eq_true, if_true, if_false,
      Bool.false_eq_true, List.nil_append, List.append_nil, List.isEmpty_cons,
      List.length_singleton, jsJoin]
    simp only [String.append_assoc]
    repeat congr 1
  · have hlen : ts.length ≠ 1 := by omega
    simp only [buildSearchJQL, optTruthy, truthyOr, hmulti, hu, hlen, Option.getD_some,
      ne_eq, not_false_eq_true, if_true, if_false,
      Bool.false_eq_true, List.nil_append, List.append_nil, List.isEmpty_cons,
      jsJoin]
    simp only [String.append_assoc]
    repeat congr 1

/-- C8 witness: the single token `"timeout"` and the two-token text
`"login timeout"`; in the latter both tokens get their own three-field
OR-group, AND-joined. -/
theorem buildSearchJQL_text_spec_witness :
    (buildSearchJQL { text := some "timeout" } =
      "(summary ~ \"timeout\" OR description ~ \"timeout\" OR comment ~ \"timeout\") ORDER BY updated DESC" ∧
    buildSearchJQL { text := some "login timeout" } =
      "(" ++ jsJoin " AND " (["login", "timeout"].map termSearchGroup) ++ ") ORDER BY updated DESC") ∧
    buildSearchJQL { text := some "login timeout" } =
      "((summary ~ \"login\" OR description ~ \"login\" OR comment ~ \"login\") AND (summary ~ \"timeout\" OR description ~ \"timeout\" OR comment ~ \"timeout\")) ORDER BY updated DESC" :=
  ⟨buildSearchJQL_text_spec "timeout" (by decide) "timeout" ["login", "timeout"]
      "login timeout" (by decide) (by decide) (by decide) (by decide),
    by decide⟩

/-- C4 counterexample: with `isLast` `true` on the first page and `false` on
the second — the order in which the claim words the example — the loop stops
after the very first fetch and returns only that page's 2 boards, not 4
boards in 2 fetches. -/
theorem getAllBoards_isLast_order_counterexample :
    getAllBoards twoPageServerClaimOrder 100 =
      some (⟨[boardAlpha, boardBeta], 4, true⟩, 1) ∧
    (twoPageServerClaimOrder 0).isLast = true ∧
    (twoPageServerClaimOrder 50).isLast = false := by
  decide

/-- C4 as amended.  Exhaustive board pagination: each iteration fetches the
page at the current offset, concatenates its `values`, and stops exactly when
that page signals `isLast` or the accumulated count has reached that page's
reported total — otherwise it recurses with the offset advanced by the fixed
page size 50; the loop starts at offset 0.  Against a server serving two
pages of 2 boards each with reported total 4 and `isLast` `false` then `true`
(not `true` then `false`), it returns the 4 boards concatenated in server
order after exactly 2 fetches. -/
theorem getAllBoards_pagination_spec
    (server : Nat → BoardsPage) (fuel startAt fetches : Nat)
    (acc : List JiraBoard) :
    getAllBoardsGo server (fuel + 1) startAt acc fetches =
      (if (server startAt).isLast ∨
          (acc ++ (server startAt).values).length ≥ (server startAt).total then
        some (⟨acc ++ (server startAt).values, (server startAt).total, true⟩,
          fetches + 1)
      else
        getAllBoardsGo server fuel (startAt + 50) (acc ++ (server startAt).values)
          (fetches + 1)) ∧
    getAllBoards server fuel = getAllBoardsGo server fuel 0 [] 0 ∧
    getAllBoards twoPageServer 100 =
      some (⟨[boardAlpha, boardBeta, boardGamma, boardDelta], 4, true⟩, 2) := by
  refine ⟨?_, rfl, by decide⟩
  show (let result := server startAt
        let currentPageBoards := result.values
        let allBoards := acc ++ currentPageBoards
        let totalCount := result.total
        let isLastPage := result.isLast
        let isLastPage :=
          if !isLastPage && allBoards.length ≥ totalCount then true else isLastPage
        if isLastPage then some (⟨allBoards, totalCount, true⟩, fetches + 1)
        else getAllBoardsGo server fuel (startAt + 50) allBoards (fetches + 1)) = _
  by_cases hlast : (server startAt).isLast
  · simp [hlast]
  · by_cases hcount : (acc ++ (server startAt).values).length ≥ (server startAt).total
    · simp [hlast, hcount]
    · simp [hlast, hcount]

/-- The empty-lines hunk obeys the numbering discipline. -/
theorem hunkWF_nil (h : ParsedHunk) (hl : h.lines = []) : hunkWF h := by
  intro i l hget
  rw [hl] at hget
  simp at hget

/-- Classifying one more line preserves the numbering discipline. -/
theorem hunkWF_append (h : ParsedHunk) (hwf : hunkWF h) (line : String) :
    hunkWF { h with lines := h.lines ++ [classifyLine h line] } := by
  intro i l hget
  have hilen : i < h.lines.length + 1 := by
    have := (List.get?_eq_some.mp hget).1
    simpa using this
  rcases Nat.lt_or_ge i h.lines.length with hi | hi
  · have hget' : h.lines.get? i = some l := by
      have := @List.get?_append _ h.lines [classifyLine h line] i hi
      simp only [this] at hget
      exact hget
    have hspec := hwf i l hget'
    have htake : (h.lines ++ [classifyLine h line]).take i = h.lines.take i :=
      List.take_append_of_le_length (Nat.le_of_lt hi)
    simpa [lineSpecAt, htake] using hspec
  · have hieq : i = h.lines.length := by omega
    subst hieq
    have hget' : l = classifyLine h line := by
      have := List.get?_concat_length h.lines (classifyLine h line)
      simp only [this] at hget
      exact (Option.some.inj hget).symm
    subst hget'
    have htake : (h.lines ++ [classifyLine h line]).take h.lines.length = h.lines :=
      List.take_left _ _
    by_cases hp : startsWithChar line '+'
    · refine ⟨?_, ?_, ?_⟩
      · intro _
        simp [lineSpecAt, classifyLine, hp, htake]
      · intro hfalse _
        simp [classifyLine, hp] at hfalse
      · intro hfalse _
        simp [classifyLine, hp] at hfalse
    · by_cases hm : startsWithChar line '-'
      · refine ⟨?_, ?_, ?_⟩
        · intro htrue
          simp [classifyLine, hp, hm] at htrue
        · intro _ _
          simp [lineSpecAt, classifyLine, hp, hm, htake]
        · intro _ hfalse
          simp [classifyLine, hp, hm] at hfalse
      · refine ⟨?_, ?_, ?_⟩
        · intro htrue
          simp [classifyLine, hp, hm] at htrue
        · intro _ htrue
          simp [classifyLine, hp, hm] at htrue
        · intro _ _
          simp [lineSpecAt, classifyLine, hp, hm, htake]

/-- Every hunk the line loop emits obeys the numbering discipline, provided
the open hunk does. -/
theorem parseDiffGo_wf :
    ∀ (lines : List String) (cur : Option ParsedHunk),
      (∀ hh, cur = some hh → hunkWF hh) →
      ∀ h ∈ parseDiffGo lines cur, hunkWF h := by
  intro lines
  induction lines with
  | nil =>
    intro cur hcur h hmem
    cases cur with
    | none => simp [parseDiffGo] at hmem
    | some hh =>
      simp [parseDiffGo] at hmem
      subst hmem
      exact hcur _ rfl
  | cons line rest ih =>
    intro cur hcur h hmem
    cases cur with
    | none =>
      simp only [parseDiffGo] at hmem
      split at hmem
      · split at hmem
        · exact ih _ (fun hh' hh'eq => by cases hh'eq; exact hunkWF_nil _ rfl) h hmem
        · exact ih _ (fun hh' hh'eq => by cases hh'eq) h hmem
      · exact ih _ (fun hh' hh'eq => by cases hh'eq) h hmem
    | some hh =>
      simp only [parseDiffGo] at hmem
      split at hmem
      · split at hmem
        · rcases List.mem_cons.mp hmem with rfl | hmem'
          · exact hcur h rfl
          · exact ih _ (fun hh' hh'eq => by cases hh'eq; exact hunkWF_nil _ rfl) h hmem'
        · exact ih _ hcur h hmem
      · exact ih _ (fun hh' hh'eq => by
          cases hh'eq; exact hunkWF_append hh (hcur hh rfl) line) h hmem

/-- C5.  Diff parsing: every hunk of every parse obeys the per-line numbering
discipline (adds numbered from `newStartLine` over preceding non-remove
lines, removes from `oldStartLine` over preceding non-add lines, context
lines carrying both); consequently, when the hunk's declared counts equal its
actual non-add and non-remove line counts and its last line is a context
line, that line's numbers are `oldStartLine + oldLineCount - 1` and
`newStartLine + newLineCount - 1`. -/
theorem parseDiff_line_numbering
    (diff : String) (h : ParsedHunk) (hmem : h ∈ parseDiff diff) :
    (∀ i l, h.lines.get? i = some l → lineSpecAt h i l) ∧
    (∀ last, h.lines.getLast? = some last →
      last.type = .context →
      h.oldLineCount = (h.lines.filter fun t => decide (t.type ≠ .add)).length →
      h.newLineCount = (h.lines.filter fun t => decide (t.type ≠ .remove)).length →
      last.oldLine = some (h.oldStartLine + h.oldLineCount - 1) ∧
      last.newLine = some (h.newStartLine + h.newLineCount - 1)) := by
  have hwf : hunkWF h :=
    parseDiffGo_wf (jsSplitNl diff) none (fun hh heq => by cases heq) h hmem
  refine ⟨hwf, ?_⟩
  intro last hlast hctx holdc hnewc
  obtain ⟨init, hinit⟩ := List.getLast?_eq_some_iff.mp hlast
  have hget : h.lines.get? init.length = some last := by
    rw [hinit]
    exact List.get?_concat_length init last
  have hspec := hwf init.length last hget
  have htake : h.lines.take init.length = init := by
    rw [hinit]
    exact List.take_left _ _
  have hplus : startsWithChar last.content '+' = false := by
    cases hb : startsWithChar last.content '+' with
    | false => rfl
    | true =>
      have h1 := (hspec.1 hb).1
      rw [hctx] at h1
      cases h1
  have hminus : startsWithChar last.content '-' = false := by
    cases hb : startsWithChar last.content '-' with
    | false => rfl
    | true =>
      have h1 := (hspec.2.1 hplus hb).1
      rw [hctx] at h1
      cases h1
  obtain ⟨_, holdl, hnewl⟩ := hspec.2.2 hplus hminus
  rw [htake] at holdl hnewl
  have hfo : (h.lines.filter fun t => decide (t.type ≠ DiffLineType.add)).length =
      (init.filter fun t => decide (t.type ≠ DiffLineType.add)).length + 1 := by
    rw [hinit, List.filter_append]
    simp [hctx]
  have hfn : (h.lines.filter fun t => decide (t.type ≠ DiffLineType.remove)).length =
      (init.filter fun t => decide (t.type ≠ DiffLineType.remove)).length + 1 := by
    rw [hinit, List.filter_append]
    simp [hctx]
  constructor
  · rw [holdl]
    congr 1
    omega
  · rw [hnewl]
    congr 1
    omega

/-- C5 witness: on the two-hunk diff the parse yields exactly the two
expected hunks (the second with both counts defaulted to 1), and the second
hunk satisfies the numbering theorem, so its last context line carries
`7 + 1 - 1` and `9 + 1 - 1`. -/
theorem parseDiff_line_numbering_witness :
    ((∀ i l, twoHunkDiffHunk2.lines.get? i = some l → lineSpecAt twoHunkDiffHunk2 i l) ∧
      (∀ last, twoHunkDiffHunk2.lines.getLast? = some last →
        last.type = .context →
        twoHunkDiffHunk2.oldLineCount =
          (twoHunkDiffHunk2.lines.filter fun t => decide (t.type ≠ .add)).length →
        twoHunkDiffHunk2.newLineCount =
          (twoHunkDiffHunk2.lines.filter fun t => decide (t.type ≠ .remove)).length →
        last.oldLine =
          some (twoHunkDiffHunk2.oldStartLine + twoHunkDiffHunk2.oldLineCount - 1) ∧
        last.newLine =
          some (twoHunkDiffHunk2.newStartLine + twoHunkDiffHunk2.newLineCount - 1))) ∧
    parseDiff twoHunkDiff = [twoHunkDiffHunk1, twoHunkDiffHunk2] :=
  ⟨parseDiff_line_numbering twoHunkDiff twoHunkDiffHunk2 (by decide), by decide⟩

/-- Code-point comparison is total. -/
theorem strLeB_total : ∀ (a b : List Char), strLeB a b = true ∨ strLeB b a = true := by
  intro a
  induction a with
  | nil => intro b; left; rfl
  | cons x xs ih =>
    intro b
    cases b with
    | nil => right; rfl
    | cons y ys =>
      by_cases h : x.toNat = y.toNat
      · have h' : y.toNat = x.toNat := h.symm
        rcases ih ys with h1 | h1
        · left; simp [strLeB, h, h1]
        · right; simp [strLeB, h', h1]
      · rcases Nat.lt_or_ge x.toNat y.toNat with hlt | hge
        · left; simp [strLeB, h, hlt]
        · right
          have h' : ¬ y.toNat = x.toNat := fun e => h e.symm
          have hlt : y.toNat < x.toNat := by omega
          simp [strLeB, h', hlt]

/-- Code-point comparison is transitive. -/
theorem strLeB_trans :
    ∀ (a b c : List Char), strLeB a b = true → strLeB b c = true →
      strLeB a c = true := by
  intro a
  induction a with
  | nil => intros; rfl
  | cons x xs ih =>
    intro b c hab hbc
    cases b with
    | nil => simp [strLeB] at hab
    | cons y ys =>
      cases c with
      | nil => simp [strLeB] at hbc
      | cons z zs =>
        by_cases hxy : x.toNat = y.toNat <;> by_cases hyz : y.toNat = z.toNat
        · have hxz : x.toNat = z.toNat := by omega
          simp only [strLeB, hxy, hyz, if_pos rfl] at hab hbc
          simp only [strLeB, hxz, if_pos rfl]
          exact ih ys zs hab hbc
        · simp only [strLeB, if_pos hxy] at hab
          simp only [strLeB, if_neg hyz, decide_eq_true_eq] at hbc
          have hne : ¬ x.toNat = z.toNat := by omega
          have hlt : x.toNat < z.toNat := by omega
          simp [strLeB, hne, hlt]
        · simp only [strLeB, if_neg hxy, decide_eq_true_eq] at hab
          have hne : ¬ x.toNat = z.toNat := by omega
          have hlt : x.toNat < z.toNat := by omega
          simp [strLeB, hne, hlt]
        · simp only [strLeB, if_neg hxy, decide_eq_true_eq] at hab
          simp only [strLeB, if_neg hyz, decide_eq_true_eq] at hbc
          have hne : ¬ x.toNat = z.toNat := by omega
          have hlt : x.toNat < z.toNat := by omega
          simp [strLeB, hne, hlt]

/-- A rank-then-name comparator is total. -/
theorem rankLexTotal {α : Type} (rk : α → Nat) (nm : α → String)
    (le : α → α → Bool)
    (hle : ∀ a b, le a b =
      (if rk a = rk b then jsStrLe (nm a) (nm b) else decide (rk a < rk b))) :
    ∀ a b, le a b = true ∨ le b a = true := by
  intro a b
  rw [hle a b, hle b a]
  by_cases h : rk a = rk b
  · simp only [h, if_pos rfl]
    have h' : rk b = rk a := h.symm
    simp only [h', if_pos rfl]
    exact strLeB_total (nm a).data (nm b).data
  · have h' : ¬ rk b = rk a := fun e => h e.symm
    simp only [if_neg h, if_neg h', decide_eq_true_eq]
    omega

/-- A rank-then-name comparator is transitive. -/
theorem rankLexTrans {α : Type} (rk : α → Nat) (nm : α → String)
    (le : α → α → Bool)
    (hle : ∀ a b, le a b =
      (if rk a = rk b then jsStrLe (nm a) (nm b) else decide (rk a < rk b))) :
    ∀ a b c, le a b = true → le b c = true → le a c = true := by
  intro a b c hab hbc
  rw [hle a b] at hab
  rw [hle b c] at hbc
  rw [hle a c]
  by_cases h1 : rk a = rk b <;> by_cases h2 : rk b = rk c
  · have h3 : rk a = rk c := by omega
    simp only [h1, if_pos rfl] at hab
    simp only [h2, if_pos rfl] at hbc
    simp only [h3, if_pos rfl]
    exact strLeB_trans _ _ _ hab hbc
  · simp only [if_neg h2, decide_eq_true_eq] at hbc
    have h3 : ¬ rk a = rk c := by omega
    have h4 : rk a < rk c := by omega
    simp [h3, h4]
  · simp only [if_neg h1, decide_eq_true_eq] at hab
    have h3 : ¬ rk a = rk c := by omega
    have h4 : rk a < rk c := by omega
    simp [h3, h4]
  · simp only [if_neg h1, decide_eq_true_eq] at hab
    simp only [if_neg h2, decide_eq_true_eq] at hbc
    have h3 : ¬ rk a = rk c := by omega
    have h4 : rk a < rk c := by omega
    simp [h3, h4]

/-- The comparator `sprintLE` is the rank-then-name comparator over `stateOrder` and the
defaulted name. -/
theorem sprintLE_eq_rankLex (a b : JiraSprint) :
    sprintLE a b =
      (if stateOrder a.state = stateOrder b.state then
        jsStrLe (a.name.getD "") (b.name.getD "")
      else decide (stateOrder a.state < stateOrder b.state)) := rfl

instance : IsTotal JiraSprint sprintRel :=
  ⟨fun a b =>
    rankLexTotal (fun s => stateOrder s.state) (fun s => s.name.getD "")
      sprintLE sprintLE_eq_rankLex a b⟩

instance : IsTrans JiraSprint sprintRel :=
  ⟨fun a b c hab hbc =>
    rankLexTrans (fun s => stateOrder s.state) (fun s => s.name.getD "")
      sprintLE sprintLE_eq_rankLex a b c hab hbc⟩

/-- The Scrum-first rank of the board comparator. -/
def boardRank (b : JiraBoard) : Nat := if b.type == "scrum" then 0 else 1

/-- The comparator `boardLE` is the rank-then-name comparator over `boardRank` and the board
name. -/
theorem boardLE_eq_rankLex (a b : JiraBoard) :
    boardLE a b =
      (if boardRank a = boardRank b then jsStrLe a.name b.name
      else decide (boardRank a < boardRank b)) := by
  unfold boardLE boardRank
  by_cases pa : a.type == "scrum" <;> by_cases pb : b.type == "scrum" <;>
    simp [pa, pb]

instance : IsTotal JiraBoard boardRel :=
  ⟨fun a b => rankLexTotal boardRank (fun b => b.name) boardLE boardLE_eq_rankLex a b⟩

instance : IsTrans JiraBoard boardRel :=
  ⟨fun a b c hab hbc =>
    rankLexTrans boardRank (fun b => b.name) boardLE boardLE_eq_rankLex a b c hab hbc⟩

/-- The function `List.findIdx` skips a front segment on which the predicate is everywhere false. -/
theorem findIdx_append_all_false {α : Type} (p : α → Bool) :
    ∀ (pre rest : List α), (∀ t ∈ pre, p t = false) →
      List.findIdx p (pre ++ rest) = pre.length + List.findIdx p rest := by
  intro pre
  induction pre with
  | nil => intro rest _; simp
  | cons t ts ih =>
    intro rest hall
    have hpt : p t = false := hall t (List.mem_cons_self _ _)
    rw [List.cons_append, List.findIdx_cons, hpt,
      ih rest (fun u hu => hall u (List.mem_cons_of_mem _ hu))]
    simp [Nat.add_assoc, Nat.add_comm 1]

/-- The function `List.findIdx` lands inside a front segment containing a witness of the predicate. -/
theorem findIdx_append_mem_lt {α : Type} (p : α → Bool) :
    ∀ (pre rest : List α) (t : α), t ∈ pre → p t = true →
      List.findIdx p (pre ++ rest) < pre.length := by
  intro pre
  induction pre with
  | nil => intro rest t ht; simp at ht
  | cons u us ih =>
    intro rest t ht hpt
    rw [List.cons_append, List.findIdx_cons]
    cases hpu : p u with
    | true => simp
    | false =>
      rcases List.mem_cons.mp ht with rfl | ht'
      · rw [hpu] at hpt; cases hpt
      · have := ih rest t ht' hpt
        simp only [cond_false, List.length_cons]
        omega

/-- The seen-set recursion only consults the membership of the seen set. -/
theorem dedupGo_congr :
    ∀ (l : List JiraSprint) (s1 s2 : List Nat),
      (∀ i, i ∈ s1 ↔ i ∈ s2) → dedupGo l s1 = dedupGo l s2 := by
  intro l
  induction l with
  | nil => intros; rfl
  | cons s rest ih =>
    intro s1 s2 hiff
    simp only [dedupGo]
    by_cases h : s.id ∈ s1
    · rw [if_pos h, if_pos ((hiff s.id).mp h)]
      exact ih s1 s2 hiff
    · rw [if_neg h, if_neg (fun h2 => h ((hiff s.id).mpr h2))]
      have hiff' : ∀ i, i ∈ s.id :: s1 ↔ i ∈ s.id :: s2 := by
        intro i
        simp [hiff i]
      by_cases hn : optTruthy s.name = true
      · rw [if_pos hn, if_pos hn, ih _ _ hiff']
      · rw [if_neg hn, if_neg hn, ih _ _ hiff']

/-- The source's index-based deduplication filter equals the seen-set
recursion: scanning the suffix `suf` of the full list `pre ++ suf`, an
element passes exactly when it is named and its id is absent from all of
`pre ++ suf` before it. -/
theorem uniqueNamedSprints_go :
    ∀ (suf pre : List JiraSprint),
      ((List.enumFrom pre.length suf).filter fun q =>
          optTruthy q.2.name &&
            ((pre ++ suf).findIdx (fun s => s.id == q.2.id) == q.1)).map (·.2) =
        dedupGo suf (pre.map (·.id)) := by
  intro suf
  induction suf with
  | nil => intro pre; simp [dedupGo]
  | cons s rest ih =>
    intro pre
    have happ : pre ++ s :: rest = (pre ++ [s]) ++ rest := by simp
    have hlen1 : pre.length + 1 = (pre ++ [s]).length := by simp
    rw [List.enumFrom_cons, List.filter_cons]
    by_cases hseen : s.id ∈ pre.map (·.id)
    · obtain ⟨t, htmem, htid⟩ := List.mem_map.mp hseen
      have hlt :=
        findIdx_append_mem_lt (fun x => x.id == s.id) pre (s :: rest) t htmem
          (by simp [htid])
      have hne : ((pre ++ s :: rest).findIdx (fun x => x.id == s.id) == pre.length) = false := by
        simp only [beq_eq_false_iff_ne, ne_eq]
        omega
      rw [hne]
      simp only [Bool.and_false, Bool.false_eq_true, if_false]
      have hstep := ih (pre ++ [s])
      rw [← hlen1, ← happ] at hstep
      rw [hstep]
      have hright : dedupGo (s :: rest) (pre.map (·.id)) = dedupGo rest (pre.map (·.id)) := by
        simp only [dedupGo, if_pos hseen]
      rw [hright]
      apply dedupGo_congr
      intro i
      simp only [List.map_append, List.map_cons, List.map_nil, List.mem_append,
        List.mem_cons, List.not_mem_nil, or_false]
      constructor
      · rintro (hi | rfl)
        · exact hi
        · exact hseen
      · intro hi
        exact Or.inl hi
    · have hall : ∀ t ∈ pre, (fun x => x.id == s.id) t = false := by
        intro t ht
        simp only [beq_eq_false_iff_ne, ne_eq]
        intro hid
        exact hseen (List.mem_map.mpr ⟨t, ht, hid⟩)
      have hidx : (pre ++ s :: rest).findIdx (fun x => x.id == s.id) = pre.length := by
        rw [findIdx_append_all_false _ pre (s :: rest) hall, List.findIdx_cons]
        simp
      rw [hidx]
      simp only [beq_self_eq_true, Bool.and_true]
      have hstep := ih (pre ++ [s])
      rw [← hlen1, ← happ] at hstep
      have hmemiff : ∀ i, i ∈ (pre ++ [s]).map (·.id) ↔ i ∈ s.id :: pre.map (·.id) := by
        intro i
        simp only [List.map_append, List.map_cons, List.map_nil, List.mem_append,
          List.mem_cons, List.not_mem_nil, or_false]
        constructor
        · rintro (hi | rfl)
          · exact Or.inr hi
          · exact Or.inl rfl
        · rintro (rfl | hi)
          · exact Or.inr rfl
          · exact Or.inl hi
      by_cases hn : optTruthy s.name = true
      · rw [if_pos hn]
        simp only [List.map_cons]
        rw [hstep, dedupGo_congr rest _ _ hmemiff]
        simp only [dedupGo, if_neg hseen, if_pos hn]
      · rw [if_neg hn]
        rw [hstep, dedupGo_congr rest _ _ hmemiff]
        simp only [dedupGo, if_neg hseen, if_neg hn]

/-- The deduplication filter is the seen-set recursion started empty. -/
theorem uniqueNamedSprints_eq (l : List JiraSprint) :
    uniqueNamedSprints l = dedupGo l [] := by
  have := uniqueNamedSprints_go l []
  simpa [uniqueNamedSprints, List.enum] using this

/-- Everything the seen-set recursion keeps avoids the seen set. -/
theorem dedupGo_id_not_seen :
    ∀ (l : List JiraSprint) (seen : List Nat) (s : JiraSprint),
      s ∈ dedupGo l seen → s.id ∉ seen := by
  intro l
  induction l with
  | nil => intro seen s hs; simp [dedupGo] at hs
  | cons t rest ih =>
    intro seen s hs
    simp only [dedupGo] at hs
    by_cases h : t.id ∈ seen
    · rw [if_pos h] at hs
      exact ih seen s hs
    · rw [if_neg h] at hs
      by_cases hn : optTruthy t.name = true
      · rw [if_pos hn] at hs
        rcases List.mem_cons.mp hs with rfl | hs'
        · exact h
        · have := ih _ s hs'
          intro hmem
          exact this (List.mem_cons_of_mem _ hmem)
      · rw [if_neg hn] at hs
        have := ih _ s hs
        intro hmem
        exact this (List.mem_cons_of_mem _ hmem)

/-- The seen-set recursion keeps no two sprints with the same id. -/
theorem dedupGo_pairwise :
    ∀ (l : List JiraSprint) (seen : List Nat),
      (dedupGo l seen).Pairwise (fun a b => a.id ≠ b.id) := by
  intro l
  induction l with
  | nil => intro seen; simp [dedupGo]
  | cons t rest ih =>
    intro seen
    simp only [dedupGo]
    by_cases h : t.id ∈ seen
    · rw [if_pos h]; exact ih seen
    · rw [if_neg h]
      by_cases hn : optTruthy t.name = true
      · rw [if_pos hn]
        refine List.Pairwise.cons ?_ (ih _)
        intro s hs heq
        have := dedupGo_id_not_seen rest (t.id :: seen) s hs
        exact this (heq ▸ List.mem_cons_self _ _)
      · rw [if_neg hn]; exact ih _

/-- The seen-set recursion keeps only named sprints. -/
theorem dedupGo_named :
    ∀ (l : List JiraSprint) (seen : List Nat) (s : JiraSprint),
      s ∈ dedupGo l seen → optTruthy s.name = true := by
  intro l
  induction l with
  | nil => intro seen s hs; simp [dedupGo] at hs
  | cons t rest ih =>
    intro seen s hs
    simp only [dedupGo] at hs
    by_cases h : t.id ∈ seen
    · rw [if_pos h] at hs; exact ih seen s hs
    · rw [if_neg h] at hs
      by_cases hn : optTruthy t.name = true
      · rw [if_pos hn] at hs
        rcases List.mem_cons.mp hs with rfl | hs'
        · exact hn
        · exact ih _ s hs'
      · rw [if_neg hn] at hs; exact ih _ s hs

/-- The seen-set recursion keeps every named first occurrence of an id. -/
theorem dedupGo_complete :
    ∀ (l1 : List JiraSprint) (s : JiraSprint) (l2 : List JiraSprint) (seen : List Nat),
      optTruthy s.name = true → (∀ t ∈ l1, t.id ≠ s.id) → s.id ∉ seen →
      s ∈ dedupGo (l1 ++ s :: l2) seen := by
  intro l1
  induction l1 with
  | nil =>
    intro s l2 seen hn _ hseen
    simp only [List.nil_append, dedupGo, if_neg hseen, if_pos hn]
    exact List.mem_cons_self _ _
  | cons t ts ih =>
    intro s l2 seen hn hfirst hseen
    have htid : t.id ≠ s.id := hfirst t (List.mem_cons_self _ _)
    have hfirst' : ∀ u ∈ ts, u.id ≠ s.id := fun u hu => hfirst u (List.mem_cons_of_mem _ hu)
    simp only [List.cons_append, dedupGo]
    by_cases h : t.id ∈ seen
    · rw [if_pos h]
      exact ih s l2 seen hn hfirst' hseen
    · rw [if_neg h]
      have hseen' : s.id ∉ t.id :: seen := by
        intro hmem
        rcases List.mem_cons.mp hmem with heq | hmem'
        · exact htid heq.symm
        · exact hseen hmem'
      by_cases hnt : optTruthy t.name = true
      · rw [if_pos hnt]
        exact List.mem_cons_of_mem _ (ih s l2 _ hn hfirst' hseen')
      · rw [if_neg hnt]
        exact ih s l2 _ hn hfirst' hseen'

/-- The sprint half of the aggregation fold: the concatenation of every
board's successfully fetched sprints, in board order, regardless of
interleaved failures. -/
theorem sprintFetch_fold_fst (fetchSprints : Nat → Except String (List JiraSprint)) :
    ∀ (bs : List JiraBoard) (acc : List JiraSprint × List String),
      (bs.foldl (sprintFetchStep fetchSprints) acc).1 =
        acc.1 ++ bs.flatMap (sprintsOf fetchSprints) := by
  intro bs
  induction bs with
  | nil => intro acc; simp
  | cons b rest ih =>
    intro acc
    rw [List.foldl_cons, ih, List.flatMap_cons]
    unfold sprintFetchStep sprintsOf
    cases hfb : fetchSprints b.id <;> simp [List.append_assoc]

/-- The error half of the aggregation fold: one recorded line per failing
board, in board order. -/
theorem sprintFetch_fold_snd (fetchSprints : Nat → Except String (List JiraSprint)) :
    ∀ (bs : List JiraBoard) (acc : List JiraSprint × List String),
      (bs.foldl (sprintFetchStep fetchSprints) acc).2 =
        acc.2 ++ bs.flatMap (fun b =>
          match fetchSprints b.id with
          | .ok _ => []
          | .error e => [boardErrorLine b e]) := by
  intro bs
  induction bs with
  | nil => intro acc; simp
  | cons b rest ih =>
    intro acc
    rw [List.foldl_cons, ih, List.flatMap_cons]
    unfold sprintFetchStep
    cases hfb : fetchSprints b.id <;> simp [hfb, List.append_assoc]

/-- A member of a joined list occurs contiguously in the join. -/
theorem jsJoin_mem_decomp (sep : String) :
    ∀ (l : List String) (m : String), m ∈ l →
      ∃ x y, (jsJoin sep l).data = x ++ m.data ++ y := by
  intro l
  induction l with
  | nil => intro m hm; simp at hm
  | cons a rest ih =>
    intro m hm
    rcases List.mem_cons.mp hm with rfl | hm'
    · cases rest with
      | nil => exact ⟨[], [], by simp [jsJoin]⟩
      | cons b bs =>
        refine ⟨[], (sep ++ jsJoin sep (b :: bs)).data, ?_⟩
        simp [jsJoin, String.data_append, List.append_assoc]
    · cases rest with
      | nil => simp at hm'
      | cons b bs =>
        obtain ⟨x, y, hxy⟩ := ih m hm'
        refine ⟨(a ++ sep).data ++ x, y, ?_⟩
        simp [jsJoin, String.data_append, hxy, List.append_assoc]

/-- On a non-empty matching-board set, the aggregation reduces to: flat-map
the per-board fetches over the prioritized boards, fail with the
no-sprints-found message (carrying the recorded per-board error lines) when
nothing was fetched, and otherwise deduplicate and sort. -/
theorem getAvailableSprints_unfold (pk : String) (boards : List JiraBoard)
    (fetch : Nat → Except String (List JiraSprint))
    (hemp : (boards.filter (matchesProject pk)).isEmpty = false) :
    getAvailableSprintsForTicket pk boards fetch =
      (let prio := (boards.filter (matchesProject pk)).insertionSort boardRel
       let allSprints := prio.flatMap (sprintsOf fetch)
       let boardErrors := prio.flatMap (fun b =>
         match fetch b.id with
         | .ok _ => []
         | .error e => [boardErrorLine b e])
       if allSprints.isEmpty then
         .error ("No sprints found for project " ++ pk ++ ". Checked boards: " ++
           jsJoin ", " (prio.map boardDisplay) ++ "." ++
           (if boardErrors.length > 0 then
             "\nErrors encountered: " ++ jsJoin "; " boardErrors
            else ""))
       else .ok ((uniqueNamedSprints allSprints).insertionSort sprintRel)) := by
  simp only [getAvailableSprintsForTicket]
  rw [hemp]
  simp only [Bool.false_eq_true, if_false]
  rw [sprintFetch_fold_fst, sprintFetch_fold_snd]
  simp only [List.nil_append]

/-- C6 counterexample: the claim's "every named sprint fetched appears in the
result" fails when a nameless sprint precedes a named sprint with the same
id — the index-based filter drops both, and here the aggregation returns the
empty list although the named sprint `Sprint A` was fetched. -/
theorem getAvailableSprints_shadowed_name_counterexample :
    getAvailableSprintsForTicket "P" [boardAlpha] shadowedFetch = .ok [] ∧
    (⟨7, some "Sprint A", .active⟩ : JiraSprint) ∈ sprintsOf shadowedFetch boardAlpha ∧
    optTruthy (some "Sprint A") = true ∧
    ¬ (⟨7, some "Sprint A", .active⟩ : JiraSprint) ∈ ([] : List JiraSprint) := by
  decide

/-- C6 as amended.  Whenever the aggregation returns a list: no two of its
sprints share an id, all of its sprints are named, every fetched sprint that
is named and is the first fetched occurrence of its id appears in it (a named
sprint preceded by a same-id occurrence — even a nameless one — is dropped),
and it is sorted by state priority (active, future, closed) then by name. -/
theorem getAvailableSprints_result_shape
    (pk : String) (boards : List JiraBoard)
    (fetch : Nat → Except String (List JiraSprint)) (l : List JiraSprint)
    (hok : getAvailableSprintsForTicket pk boards fetch = .ok l) :
    l.Pairwise (fun a b => a.id ≠ b.id) ∧
    (∀ s ∈ l, optTruthy s.name = true) ∧
    (∀ pre s post,
      ((boards.filter (matchesProject pk)).insertionSort boardRel).flatMap
          (sprintsOf fetch) = pre ++ s :: post →
      optTruthy s.name = true → (∀ t ∈ pre, t.id ≠ s.id) → s ∈ l) ∧
    l.Sorted sprintRel := by
  have hemp : (boards.filter (matchesProject pk)).isEmpty = false := by
    cases hpb : (boards.filter (matchesProject pk)).isEmpty with
    | false => rfl
    | true =>
      simp only [getAvailableSprintsForTicket, hpb, if_true] at hok
      cases hok
  have hF := getAvailableSprints_unfold pk boards fetch hemp
  rw [hF] at hok
  simp only [] at hok
  by_cases hAS :
      (((boards.filter (matchesProject pk)).insertionSort boardRel).flatMap
        (sprintsOf fetch)).isEmpty = true
  · rw [if_pos hAS] at hok
    cases hok
  · rw [if_neg hAS] at hok
    have hl := (Except.ok.inj hok).symm
    subst hl
    set AS := ((boards.filter (matchesProject pk)).insertionSort boardRel).flatMap
      (sprintsOf fetch) with hASdef
    have hperm := List.perm_insertionSort sprintRel (uniqueNamedSprints AS)
    have hdedup := uniqueNamedSprints_eq AS
    refine ⟨?_, ?_, ?_, ?_⟩
    · have hpw := dedupGo_pairwise AS []
      rw [← hdedup] at hpw
      exact (hperm.pairwise_iff (fun {x y} h e => h e.symm)).mpr hpw
    · intro s hs
      have hs' := hperm.mem_iff.mp hs
      rw [hdedup] at hs'
      exact dedupGo_named AS [] s hs'
    · intro pre s post hsplit hn hfirst
      have hmem : s ∈ dedupGo AS [] := by
        rw [hsplit]
        exact dedupGo_complete pre s post [] hn hfirst (by simp)
      rw [← hdedup] at hmem
      exact hperm.mem_iff.mpr hmem
    · exact List.sorted_insertionSort sprintRel _

/-- C6 witness: one board fetching duplicate ids, a nameless sprint, and
named sprints across states; the hypothesis holds by evaluation and the
result is the deduplicated, name-filtered, state-then-name-sorted list. -/
theorem getAvailableSprints_result_shape_witness :
    (([⟨13, some "Act", .active⟩, ⟨11, some "Ann", .closed⟩,
        ⟨10, some "Zed", .closed⟩] : List JiraSprint).Pairwise
        (fun a b => a.id ≠ b.id) ∧
      (∀ s ∈ ([⟨13, some "Act", .active⟩, ⟨11, some "Ann", .closed⟩,
        ⟨10, some "Zed", .closed⟩] : List JiraSprint), optTruthy s.name = true) ∧
      (∀ pre s post,
        (([boardAlpha].filter (matchesProject "P")).insertionSort boardRel).flatMap
            (sprintsOf mixedFetch) = pre ++ s :: post →
        optTruthy s.name = true → (∀ t ∈ pre, t.id ≠ s.id) →
        s ∈ ([⟨13, some "Act", .active⟩, ⟨11, some "Ann", .closed⟩,
          ⟨10, some "Zed", .closed⟩] : List JiraSprint)) ∧
      ([⟨13, some "Act", .active⟩, ⟨11, some "Ann", .closed⟩,
        ⟨10, some "Zed", .closed⟩] : List JiraSprint).Sorted sprintRel) ∧
    getAvailableSprintsForTicket "P" [boardAlpha] mixedFetch =
      .ok [⟨13, some "Act", .active⟩, ⟨11, some "Ann", .closed⟩,
        ⟨10, some "Zed", .closed⟩] :=
  ⟨getAvailableSprints_result_shape "P" [boardAlpha] mixedFetch
      [⟨13, some "Act", .active⟩, ⟨11, some "Ann", .closed⟩, ⟨10, some "Zed", .closed⟩]
      (by decide),
    by decide⟩

/-- C7.  Per-board failure tolerance: with a non-empty matching-board set,
the aggregation fails exactly when every matching board yields zero sprints
(a failing fetch yields zero); on success the result is built from the
sprints of **all** matching boards — a failure on one board does not abort
the others' fetches — and on failure every failing board's recorded error
line occurs verbatim inside the error message. -/
theorem getAvailableSprints_failure_tolerance
    (pk : String) (boards : List JiraBoard)
    (fetch : Nat → Except String (List JiraSprint))
    (hne : boards.filter (matchesProject pk) ≠ []) :
    ((∃ e, getAvailableSprintsForTicket pk boards fetch = .error e) ↔
      ∀ b ∈ boards.filter (matchesProject pk), sprintsOf fetch b = []) ∧
    (∀ l, getAvailableSprintsForTicket pk boards fetch = .ok l →
      l = (uniqueNamedSprints
          (((boards.filter (matchesProject pk)).insertionSort boardRel).flatMap
            (sprintsOf fetch))).insertionSort sprintRel) ∧
    (∀ msg b e, getAvailableSprintsForTicket pk boards fetch = .error msg →
      b ∈ boards.filter (matchesProject pk) → fetch b.id = .error e →
      ∃ x y, msg.data = x ++ (boardErrorLine b e).data ++ y) := by
  have hemp : (boards.filter (matchesProject pk)).isEmpty = false := by
    cases hpb : boards.filter (matchesProject pk) with
    | nil => exact absurd hpb hne
    | cons a rest => rfl
  have hF := getAvailableSprints_unfold pk boards fetch hemp
  simp only [] at hF
  have hperm := List.perm_insertionSort boardRel (boards.filter (matchesProject pk))
  have hASiff :
      (((boards.filter (matchesProject pk)).insertionSort boardRel).flatMap
          (sprintsOf fetch) = []) ↔
        ∀ b ∈ boards.filter (matchesProject pk), sprintsOf fetch b = [] := by
    rw [List.flatMap_eq_nil_iff]
    constructor
    · intro h b hb
      exact h b (hperm.mem_iff.mpr hb)
    · intro h b hb
      exact h b (hperm.mem_iff.mp hb)
  cases hcase :
      (((boards.filter (matchesProject pk)).insertionSort boardRel).flatMap
        (sprintsOf fetch)).isEmpty with
  | true =>
    have hnil := List.isEmpty_iff.mp hcase
    simp only [hcase, eq_self_iff_true, if_true] at hF
    refine ⟨⟨fun _ => hASiff.mp hnil, fun _ => ⟨_, hF⟩⟩, ?_, ?_⟩
    · intro l hl
      rw [hF] at hl
      cases hl
    · intro msg b e hmsg hb hfe
      rw [hF] at hmsg
      have hmsgEq := (Except.error.inj hmsg).symm
      have hline : boardErrorLine b e ∈
          ((boards.filter (matchesProject pk)).insertionSort boardRel).flatMap
            (fun b => match fetch b.id with
              | .ok _ => []
              | .error e => [boardErrorLine b e]) := by
        refine List.mem_flatMap.mpr ⟨b, hperm.mem_iff.mpr hb, ?_⟩
        rw [hfe]
        exact List.mem_cons_self _ _
      have hlen :
          0 < (((boards.filter (matchesProject pk)).insertionSort boardRel).flatMap
            (fun b => match fetch b.id with
              | .ok _ => []
              | .error e => [boardErrorLine b e])).length :=
        List.length_pos.mpr (List.ne_nil_of_mem hline)
      rw [if_pos hlen] at hmsgEq
      obtain ⟨x, y, hxy⟩ := jsJoin_mem_decomp "; " _ _ hline
      refine ⟨("No sprints found for project " ++ pk ++ ". Checked boards: " ++
        jsJoin ", "
          (((boards.filter (matchesProject pk)).insertionSort boardRel).map
            boardDisplay) ++ "." ++ "\nErrors encountered: ").data ++ x, y, ?_⟩
      rw [hmsgEq]
      simp only [String.data_append, hxy, List.append_assoc]
  | false =>
    have hne0 :
        ((boards.filter (matchesProject pk)).insertionSort boardRel).flatMap
          (sprintsOf fetch) ≠ [] := by
      intro h
      rw [h] at hcase
      cases hcase
    simp only [hcase, Bool.false_eq_true, if_false] at hF
    refine ⟨⟨?_, ?_⟩, ?_, ?_⟩
    · rintro ⟨e, he⟩
      rw [hF] at he
      cases he
    · intro h
      exact absurd (hASiff.mpr h) hne0
    · intro l hl
      rw [hF] at hl
      exact (Except.ok.inj hl).symm
    · intro msg b e hmsg
      rw [hF] at hmsg
      cases hmsg

/-- C7 witness: two matching boards, the first (a Scrum board, fetched first)
failing and the second succeeding; the failure neither aborts the second
board's fetch nor surfaces as an error — the aggregation returns the second
board's sprint. -/
theorem getAvailableSprints_failure_tolerance_witness :
    (((∃ e, getAvailableSprintsForTicket "P" [boardAlpha, boardBeta]
          failingFirstFetch = .error e) ↔
        ∀ b ∈ [boardAlpha, boardBeta].filter (matchesProject "P"),
          sprintsOf failingFirstFetch b = []) ∧
      (∀ l, getAvailableSprintsForTicket "P" [boardAlpha, boardBeta]
            failingFirstFetch = .ok l →
        l = (uniqueNamedSprints
            ((([boardAlpha, boardBeta].filter (matchesProject "P")).insertionSort
              boardRel).flatMap (sprintsOf failingFirstFetch))).insertionSort
              sprintRel) ∧
      (∀ msg b e, getAvailableSprintsForTicket "P" [boardAlpha, boardBeta]
            failingFirstFetch = .error msg →
        b ∈ [boardAlpha, boardBeta].filter (matchesProject "P") →
        failingFirstFetch b.id = .error e →
        ∃ x y, msg.data = x ++ (boardErrorLine b e).data ++ y)) ∧
    getAvailableSprintsForTicket "P" [boardAlpha, boardBeta] failingFirstFetch =
      .ok [⟨5, some "S5", .active⟩] :=
  ⟨getAvailableSprints_failure_tolerance "P" [boardAlpha, boardBeta]
      failingFirstFetch (by decide),
    by decide⟩
